import Mathlib

/-!
Verification of the astrict GLSL lowering pass (libs/astrict/src/FromGlsl.cpp).

This file shallowly embeds the lowering engine: the two generic interning
stores (IdStoreByValue, IdStoreByKey), the operator mapping tables, the
texture-function naming rule, qualifier and type lowering, the recursive
expression and statement lowering (slurpValue, nodeToStatements), and the
program-root driver (slurpFromRoot, fromGlsl).  C++ panics
(PANIC_PRECONDITION / ASSERT_PRECONDITION) are modelled with Except: a
fatal condition produces Except.error and no Pack is built.  Unordered
maps are modelled as association lists (lookup by decidable equality);
only lookup results, not iteration order, matter to the theorems.
-/

set_option autoImplicit false

namespace Astrict

/-! ## Interning stores (FromGlsl.cpp lines 758-823) -/

/-- Lookup in the association list that models the unordered_map of
IdStoreByValue (value-keyed). -/
def findValue {V : Type} [DecidableEq V] : List (V × Nat) → V → Option Nat
  | [], _ => none
  | (w, i) :: rest, v => if v = w then some i else findValue rest v

/-- Embeds the C++ template IdStoreByValue: a by-value interning table.
mLastId starts at 0 and the first allocated id is ++mLastId = 1. -/
structure IdStoreByValue (V : Type) where
  lastId : Nat
  entries : List (V × Nat)
  deriving DecidableEq

/-- The freshly constructed store (mLastId = 0, empty map). -/
def IdStoreByValue.empty (V : Type) : IdStoreByValue V := ⟨0, []⟩

/-- IdStoreByValue::insert: return the id of an equal previously inserted
value, else allocate ++mLastId and record it. -/
def IdStoreByValue.insert {V : Type} [DecidableEq V] (s : IdStoreByValue V) (v : V) :
    Nat × IdStoreByValue V :=
  match findValue s.entries v with
  | some i => (i, s)
  | none => (s.lastId + 1, ⟨s.lastId + 1, (v, s.lastId + 1) :: s.entries⟩)

/-- IdStoreByValue::getFinal: invert the map into id -> value form. -/
def IdStoreByValue.getFinal {V : Type} (s : IdStoreByValue V) : List (Nat × V) :=
  s.entries.map (fun p => (p.2, p.1))

/-- Run a sequence of inserts (left to right) against a store. -/
def insertList {V : Type} [DecidableEq V] (s : IdStoreByValue V) : List V → IdStoreByValue V
  | [] => s
  | v :: vs => insertList (s.insert v).2 vs

/-- The store obtained by inserting a list of values into a fresh store. -/
def runInserts {V : Type} [DecidableEq V] (vs : List V) : IdStoreByValue V :=
  insertList (IdStoreByValue.empty V) vs

/-- The distinct values of a list, in order of first appearance. -/
def firstUsesAux {V : Type} [DecidableEq V] (acc : List V) : List V → List V
  | [] => acc
  | v :: vs => firstUsesAux (if v ∈ acc then acc else acc ++ [v]) vs

/-- Distinct values in first-use order. -/
def firstUses {V : Type} [DecidableEq V] (vs : List V) : List V := firstUsesAux [] vs

/-- The invariant tying a by-value store to the list of distinct values in
allocation order: ids are exactly 1..length, id i belongs to the value at
position i-1. -/
def StoreInv {V : Type} [DecidableEq V] (s : IdStoreByValue V) (us : List V) : Prop :=
  s.lastId = us.length ∧
  ∀ v i, findValue s.entries v = some i ↔ 1 ≤ i ∧ us.get? (i - 1) = some v

theorem storeInv_empty {V : Type} [DecidableEq V] : StoreInv (IdStoreByValue.empty V) [] := by
  refine ⟨rfl, fun v i => ?_⟩
  simp [IdStoreByValue.empty, findValue]

theorem findValue_none_of_not_mem {V : Type} [DecidableEq V] {s : IdStoreByValue V}
    {us : List V} (h : StoreInv s us) {v : V} (hv : v ∉ us) :
    findValue s.entries v = none := by
  cases hfind : findValue s.entries v with
  | none => rfl
  | some i =>
    have := (h.2 v i).1 hfind
    exact absurd (List.get?_mem this.2) hv

theorem findValue_some_of_mem {V : Type} [DecidableEq V] {s : IdStoreByValue V}
    {us : List V} (h : StoreInv s us) {v : V} (hv : v ∈ us) :
    ∃ i, findValue s.entries v = some i := by
  obtain ⟨n, hget⟩ := List.mem_iff_get.1 hv
  refine ⟨n.1 + 1, (h.2 v (n.1 + 1)).2 ⟨by omega, ?_⟩⟩
  simpa [List.get?_eq_get n.2] using congrArg some hget

theorem storeInv_insert_not_mem {V : Type} [DecidableEq V] {s : IdStoreByValue V}
    {us : List V} (h : StoreInv s us) {v : V} (hv : v ∉ us) :
    s.insert v = (us.length + 1,
      ⟨us.length + 1, (v, us.length + 1) :: s.entries⟩) ∧
    StoreInv ⟨us.length + 1, (v, us.length + 1) :: s.entries⟩ (us ++ [v]) := by
  have hnone := findValue_none_of_not_mem h hv
  constructor
  · simp [IdStoreByValue.insert, hnone, h.1]
  · refine ⟨by simp, fun w i => ?_⟩
    simp only [findValue]
    by_cases hw : w = v
    · subst hw
      simp only [if_pos rfl]
      constructor
      · intro hi
        simp only [if_true, Option.some_inj, eq_self_iff_true, if_pos] at hi
        subst hi
        refine ⟨by omega, ?_⟩
        rw [List.get?_append_right (by omega)]
        simp
      · rintro ⟨h1, hget⟩
        rcases Nat.lt_or_ge (i - 1) us.length with hc | hc
        · rw [List.get?_append hc] at hget
          exact absurd (List.get?_mem hget) hv
        · have hlt : i - 1 < us.length + 1 := by
            by_contra hge
            rw [List.get?_eq_none.2 (by simp; omega)] at hget
            exact Option.noConfusion hget
          have : us.length + 1 = i := by omega
          simp [this]
    · rw [if_neg hw, h.2 w i]
      constructor
      · rintro ⟨h1, hget⟩
        have hlt := List.get?_eq_some.1 hget
        refine ⟨h1, ?_⟩
        rw [List.get?_append]
        · exact hget
        · obtain ⟨hh, _⟩ := hlt
          exact hh
      · rintro ⟨h1, hget⟩
        refine ⟨h1, ?_⟩
        rcases Nat.lt_or_ge (i - 1) us.length with hc | hc
        · rwa [List.get?_append hc] at hget
        · rw [List.get?_append_right hc] at hget
          rcases Nat.lt_or_ge (i - 1 - us.length) 1 with hd | hd
          · have : i - 1 - us.length = 0 := by omega
            rw [this] at hget
            simp at hget
            exact absurd hget.symm hw
          · rw [List.get?_eq_none.2 (by simp; omega)] at hget
            exact Option.noConfusion hget

theorem storeInv_insertList {V : Type} [DecidableEq V] :
    ∀ (vs : List V) (s : IdStoreByValue V) (us : List V),
      StoreInv s us → StoreInv (insertList s vs) (firstUsesAux us vs)
  | [], s, us, h => h
  | v :: vs, s, us, h => by
    rw [insertList, firstUsesAux]
    by_cases hv : v ∈ us
    · obtain ⟨i, hi⟩ := findValue_some_of_mem h hv
      have hs : (s.insert v).2 = s := by simp [IdStoreByValue.insert, hi]
      rw [hs, if_pos hv]
      exact storeInv_insertList vs s us h
    · obtain ⟨heq, hinv⟩ := storeInv_insert_not_mem h hv
      rw [if_neg hv]
      have hs : (s.insert v).2 =
          ⟨us.length + 1, (v, us.length + 1) :: s.entries⟩ := by rw [heq]
      rw [hs]
      exact storeInv_insertList vs _ _ hinv

theorem storeInv_runInserts {V : Type} [DecidableEq V] (vs : List V) :
    StoreInv (runInserts vs) (firstUses vs) :=
  storeInv_insertList vs _ [] storeInv_empty

theorem storeInv_nodup {V : Type} [DecidableEq V] {s : IdStoreByValue V}
    {us : List V} (h : StoreInv s us) : us.Nodup := by
  rw [List.nodup_iff_injective_get]
  intro n m heq
  have hn : findValue s.entries (us.get n) = some (n.1 + 1) :=
    (h.2 _ _).2 ⟨by omega, by simpa [List.get?_eq_get n.2] using rfl⟩
  have hm : findValue s.entries (us.get n) = some (m.1 + 1) := by
    rw [heq]
    exact (h.2 _ _).2 ⟨by omega, by simpa [List.get?_eq_get m.2] using rfl⟩
  rw [hn] at hm
  have : n.1 = m.1 := by
    have := Option.some_inj.1 hm
    omega
  exact Fin.ext this

theorem mem_firstUsesAux {V : Type} [DecidableEq V] :
    ∀ (vs acc : List V) (v : V), v ∈ firstUsesAux acc vs ↔ v ∈ acc ∨ v ∈ vs
  | [], acc, v => by simp [firstUsesAux]
  | w :: vs, acc, v => by
    rw [firstUsesAux, mem_firstUsesAux vs _ v]
    by_cases hw : w ∈ acc
    · rw [if_pos hw]
      simp only [List.mem_cons]
      constructor
      · rintro (h | h)
        · exact Or.inl h
        · exact Or.inr (Or.inr h)
      · rintro (h | rfl | h)
        · exact Or.inl h
        · exact Or.inl hw
        · exact Or.inr h
    · rw [if_neg hw]
      simp only [List.mem_append, List.mem_singleton, List.mem_cons]
      tauto

theorem mem_firstUses {V : Type} [DecidableEq V] (vs : List V) (v : V) :
    v ∈ firstUses vs ↔ v ∈ vs := by
  rw [firstUses, mem_firstUsesAux]
  simp

theorem card_firstUses {V : Type} [DecidableEq V] (vs : List V) :
    vs.toFinset.card = (firstUses vs).length := by
  have hnd : (firstUses vs).Nodup := storeInv_nodup (storeInv_runInserts vs)
  rw [← List.toFinset_card_of_nodup hnd]
  congr 1
  ext v
  simp [mem_firstUses]

/-- Claim C2: the by-value interning store returns the previously allocated
id for a structurally equal value (with no state change), otherwise a fresh
id never allocated before; after any sequence of inserts the allocated ids
are exactly 1..n for n the number of distinct values inserted, assigned in
first-use order, and structurally distinct values hold distinct ids. -/
theorem idStoreByValue_interning_spec {V : Type} [DecidableEq V] (vs : List V) :
    (∀ v i, findValue (runInserts vs).entries v = some i →
      (runInserts vs).insert v = (i, runInserts vs)) ∧
    (∀ v, findValue (runInserts vs).entries v = none →
      ((runInserts vs).insert v).1 = (runInserts vs).lastId + 1 ∧
      ∀ w j, findValue (runInserts vs).entries w = some j →
        j ≠ ((runInserts vs).insert v).1) ∧
    (∀ v i, findValue (runInserts vs).entries v = some i ↔
      1 ≤ i ∧ (firstUses vs).get? (i - 1) = some v) ∧
    (∀ i, 1 ≤ i → i ≤ (firstUses vs).length →
      ∃ v, findValue (runInserts vs).entries v = some i) ∧
    (firstUses vs).Nodup ∧
    (∀ v, v ∈ firstUses vs ↔ v ∈ vs) ∧
    vs.toFinset.card = (firstUses vs).length ∧
    (∀ v w i, findValue (runInserts vs).entries v = some i →
      findValue (runInserts vs).entries w = some i → v = w) := by
  have hinv := storeInv_runInserts vs
  refine ⟨?_, ?_, hinv.2, ?_, storeInv_nodup hinv, mem_firstUses vs, card_firstUses vs, ?_⟩
  · intro v i hi
    simp [IdStoreByValue.insert, hi]
  · intro v hv
    refine ⟨by simp [IdStoreByValue.insert, hv], fun w j hj => ?_⟩
    have hji := (hinv.2 w j).1 hj
    have hlt := List.get?_eq_some.1 hji.2
    obtain ⟨hh, _⟩ := hlt
    have : ((runInserts vs).insert v).1 = (runInserts vs).lastId + 1 := by
      simp [IdStoreByValue.insert, hv]
    rw [this, hinv.1]
    omega
  · intro i h1 hn
    refine ⟨(firstUses vs).get ⟨i - 1, by omega⟩, (hinv.2 _ _).2 ⟨h1, ?_⟩⟩
    simp [List.get?_eq_get]
  · intro v w i hv hw
    have h1 := (hinv.2 v i).1 hv
    have h2 := (hinv.2 w i).1 hw
    rw [h1.2] at h2
    exact Option.some_inj.1 h2.2

/-- Witness for C2: inserting 5, 7, 5 into a fresh store allocates ids 1
and 2, and re-inserting 5 returns id 1 unchanged. -/
theorem idStoreByValue_interning_spec_witness :
    (runInserts ([5, 7, 5] : List Nat)).insert 5 = (1, runInserts [5, 7, 5]) :=
  (@idStoreByValue_interning_spec Nat _ [5, 7, 5]).1 5 1 (by decide)

/-- Lookup in the association list that models the unordered_map of
IdStoreByKey (key-keyed, storing an id-value pair). -/
def findKey {K V : Type} [DecidableEq K] : List (K × Nat × V) → K → Option (Nat × V)
  | [], _ => none
  | (k, i, v) :: rest, key => if key = k then some (i, v) else findKey rest key

/-- Embeds the C++ template IdStoreByKey: a by-key interning table. -/
structure IdStoreByKey (K V : Type) where
  lastId : Nat
  entries : List (K × Nat × V)
  deriving DecidableEq

/-- The freshly constructed keyed store. -/
def IdStoreByKey.empty (K V : Type) : IdStoreByKey K V := ⟨0, []⟩

/-- IdStoreByKey::insert: return existing id if the key was seen before
(the value argument is ignored on repeats), else allocate ++mLastId and
store the pair. -/
def IdStoreByKey.insert {K V : Type} [DecidableEq K] (s : IdStoreByKey K V) (k : K) (v : V) :
    Nat × IdStoreByKey K V :=
  match findKey s.entries k with
  | some (i, _) => (i, s)
  | none => (s.lastId + 1, ⟨s.lastId + 1, (k, s.lastId + 1, v) :: s.entries⟩)

/-- IdStoreByKey::get: lookup without inserting. -/
def IdStoreByKey.get {K V : Type} [DecidableEq K] (s : IdStoreByKey K V) (k : K) : Option Nat :=
  (findKey s.entries k).map Prod.fst

/-- IdStoreByKey::getFinal: project the map into id -> value form. -/
def IdStoreByKey.getFinal {K V : Type} (s : IdStoreByKey K V) : List (Nat × V) :=
  s.entries.map (fun p => p.2)

/-- IdStoreByKey::empty() const: whether no key was ever inserted. -/
def IdStoreByKey.isEmpty {K V : Type} (s : IdStoreByKey K V) : Bool :=
  s.entries.isEmpty

/-- Run a sequence of keyed inserts (left to right) against a store. -/
def insertKeyList {K V : Type} [DecidableEq K] (s : IdStoreByKey K V) :
    List (K × V) → IdStoreByKey K V
  | [] => s
  | (k, v) :: ps => insertKeyList (s.insert k v).2 ps

/-- The keyed store obtained by inserting a list of pairs into a fresh store. -/
def runKeyInserts {K V : Type} [DecidableEq K] (ps : List (K × V)) : IdStoreByKey K V :=
  insertKeyList (IdStoreByKey.empty K V) ps

/-- The pairs that actually get stored: the first pair for each key, in
order of first key appearance. -/
def firstPairsAux {K V : Type} [DecidableEq K] (acc : List (K × V)) :
    List (K × V) → List (K × V)
  | [] => acc
  | (k, v) :: ps =>
    firstPairsAux (if k ∈ acc.map Prod.fst then acc else acc ++ [(k, v)]) ps

/-- First pair per key, in key first-use order. -/
def firstPairs {K V : Type} [DecidableEq K] (ps : List (K × V)) : List (K × V) :=
  firstPairsAux [] ps

/-- The invariant tying a keyed store to the list of first pairs in
allocation order. -/
def KeyInv {K V : Type} [DecidableEq K] (s : IdStoreByKey K V) (qs : List (K × V)) : Prop :=
  s.lastId = qs.length ∧
  ∀ k i v, findKey s.entries k = some (i, v) ↔ 1 ≤ i ∧ qs.get? (i - 1) = some (k, v)

theorem keyInv_empty {K V : Type} [DecidableEq K] : KeyInv (IdStoreByKey.empty K V) [] := by
  refine ⟨rfl, fun k i v => ?_⟩
  simp [IdStoreByKey.empty, findKey]

theorem findKey_none_of_not_mem {K V : Type} [DecidableEq K] {s : IdStoreByKey K V}
    {qs : List (K × V)} (h : KeyInv s qs) {k : K} (hk : k ∉ qs.map Prod.fst) :
    findKey s.entries k = none := by
  cases hfind : findKey s.entries k with
  | none => rfl
  | some p =>
    have := (h.2 k p.1 p.2).1 (by rw [hfind])
    exact absurd (List.mem_map_of_mem Prod.fst (List.get?_mem this.2)) hk

theorem findKey_some_of_mem {K V : Type} [DecidableEq K] {s : IdStoreByKey K V}
    {qs : List (K × V)} (h : KeyInv s qs) {k : K} (hk : k ∈ qs.map Prod.fst) :
    ∃ i v, findKey s.entries k = some (i, v) := by
  obtain ⟨p, hp, hpk⟩ := List.mem_map.1 hk
  obtain ⟨n, hget⟩ := List.mem_iff_get.1 hp
  refine ⟨n.1 + 1, p.2, (h.2 k (n.1 + 1) p.2).2 ⟨by omega, ?_⟩⟩
  have hq : qs.get? n.1 = some p := by rw [List.get?_eq_get n.2, hget]
  simp only [Nat.add_sub_cancel]
  rw [hq, ← hpk]

theorem keyInv_insert_not_mem {K V : Type} [DecidableEq K] {s : IdStoreByKey K V}
    {qs : List (K × V)} (h : KeyInv s qs) {k : K} (hk : k ∉ qs.map Prod.fst) (v : V) :
    s.insert k v = (qs.length + 1,
      ⟨qs.length + 1, (k, qs.length + 1, v) :: s.entries⟩) ∧
    KeyInv ⟨qs.length + 1, (k, qs.length + 1, v) :: s.entries⟩ (qs ++ [(k, v)]) := by
  have hnone := findKey_none_of_not_mem h hk
  constructor
  · simp [IdStoreByKey.insert, hnone, h.1]
  · refine ⟨by simp, fun key i w => ?_⟩
    simp only [findKey]
    by_cases hkey : key = k
    · rw [if_pos hkey]
      subst hkey
      constructor
      · intro hi
        rw [Option.some_inj, Prod.ext_iff] at hi
        obtain ⟨hi1, hi2⟩ := hi
        dsimp only at hi1 hi2
        subst hi1
        refine ⟨by omega, ?_⟩
        rw [List.get?_append_right (by omega)]
        have hz : qs.length + 1 - 1 - qs.length = 0 := by omega
        rw [hz]
        simp [hi2]
      · rintro ⟨h1, hget⟩
        rcases Nat.lt_or_ge (i - 1) qs.length with hc | hc
        · rw [List.get?_append hc] at hget
          exact absurd (List.mem_map_of_mem Prod.fst (List.get?_mem hget)) hk
        · have hlt : i - 1 < qs.length + 1 := by
            by_contra hge
            rw [List.get?_eq_none.2 (by simp; omega)] at hget
            exact Option.noConfusion hget
          have hi : i = qs.length + 1 := by omega
          subst hi
          rw [List.get?_append_right (by omega)] at hget
          have hz : qs.length + 1 - 1 - qs.length = 0 := by omega
          rw [hz] at hget
          simp only [List.get?] at hget
          simp at hget
          simp [hget]
    · rw [if_neg hkey, h.2 key i w]
      constructor
      · rintro ⟨h1, hget⟩
        have hlt := List.get?_eq_some.1 hget
        obtain ⟨hh, _⟩ := hlt
        exact ⟨h1, by rw [List.get?_append hh]; exact hget⟩
      · rintro ⟨h1, hget⟩
        refine ⟨h1, ?_⟩
        rcases Nat.lt_or_ge (i - 1) qs.length with hc | hc
        · rwa [List.get?_append hc] at hget
        · rcases Nat.lt_or_ge (i - 1 - qs.length) 1 with hd | hd
          · rw [List.get?_append_right hc] at hget
            have hz : i - 1 - qs.length = 0 := by omega
            rw [hz] at hget
            simp at hget
            exact absurd hget.1.symm hkey
          · rw [List.get?_eq_none.2 (by simp; omega)] at hget
            exact Option.noConfusion hget

theorem keyInv_insertKeyList {K V : Type} [DecidableEq K] :
    ∀ (ps : List (K × V)) (s : IdStoreByKey K V) (qs : List (K × V)),
      KeyInv s qs → KeyInv (insertKeyList s ps) (firstPairsAux qs ps)
  | [], s, qs, h => h
  | (k, v) :: ps, s, qs, h => by
    rw [insertKeyList, firstPairsAux]
    by_cases hk : k ∈ qs.map Prod.fst
    · obtain ⟨i, w, hi⟩ := findKey_some_of_mem h hk
      have hs : (s.insert k v).2 = s := by simp [IdStoreByKey.insert, hi]
      rw [hs, if_pos hk]
      exact keyInv_insertKeyList ps s qs h
    · obtain ⟨heq, hinv⟩ := keyInv_insert_not_mem h hk v
      rw [if_neg hk]
      have hs : (s.insert k v).2 =
          ⟨qs.length + 1, (k, qs.length + 1, v) :: s.entries⟩ := by rw [heq]
      rw [hs]
      exact keyInv_insertKeyList ps _ _ hinv

theorem keyInv_runKeyInserts {K V : Type} [DecidableEq K] (ps : List (K × V)) :
    KeyInv (runKeyInserts ps) (firstPairs ps) :=
  keyInv_insertKeyList ps _ [] keyInv_empty

theorem mem_firstPairsAux_decomp {K V : Type} [DecidableEq K] :
    ∀ (ps acc : List (K × V)) (k : K) (v : V),
      (k, v) ∈ firstPairsAux acc ps →
      (k, v) ∈ acc ∨ (k ∉ acc.map Prod.fst ∧
        ∃ qs1 qs2, ps = qs1 ++ (k, v) :: qs2 ∧ k ∉ qs1.map Prod.fst)
  | [], acc, k, v => by
    intro h
    exact Or.inl h
  | (k1, v1) :: ps, acc, k, v => by
    intro h
    rw [firstPairsAux] at h
    by_cases hk1 : k1 ∈ acc.map Prod.fst
    · rw [if_pos hk1] at h
      rcases mem_firstPairsAux_decomp ps acc k v h with hl | ⟨hna, qs1, qs2, hps, hq⟩
      · exact Or.inl hl
      · refine Or.inr ⟨hna, (k1, v1) :: qs1, qs2, by simp [hps], ?_⟩
        simp only [List.map_cons, List.mem_cons]
        rintro (rfl | hmem)
        · exact hna hk1
        · exact hq hmem
    · rw [if_neg hk1] at h
      rcases mem_firstPairsAux_decomp ps _ k v h with hl | ⟨hna, qs1, qs2, hps, hq⟩
      · rcases List.mem_append.1 hl with hl | hl
        · exact Or.inl hl
        · simp only [List.mem_singleton] at hl
          obtain ⟨rfl, rfl⟩ := Prod.mk.injEq .. ▸ Prod.ext_iff.1 hl
          exact Or.inr ⟨hk1, [], ps, rfl, by simp⟩
      · simp only [List.map_append, List.mem_append] at hna
        push_neg at hna
        refine Or.inr ⟨hna.1, (k1, v1) :: qs1, qs2, by simp [hps], ?_⟩
        simp only [List.map_cons, List.mem_cons]
        rintro (rfl | hmem)
        · exact hna.2 (by simp)
        · exact hq hmem

theorem mem_keys_firstPairsAux {K V : Type} [DecidableEq K] :
    ∀ (ps acc : List (K × V)) (k : K),
      k ∈ (firstPairsAux acc ps).map Prod.fst ↔ k ∈ acc.map Prod.fst ∨ k ∈ ps.map Prod.fst
  | [], acc, k => by simp [firstPairsAux]
  | (k1, v1) :: ps, acc, k => by
    rw [firstPairsAux, mem_keys_firstPairsAux ps _ k]
    by_cases hk1 : k1 ∈ acc.map Prod.fst
    · rw [if_pos hk1]
      simp only [List.map_cons, List.mem_cons]
      constructor
      · rintro (h | h)
        · exact Or.inl h
        · exact Or.inr (Or.inr h)
      · rintro (h | rfl | h)
        · exact Or.inl h
        · exact Or.inl hk1
        · exact Or.inr h
    · rw [if_neg hk1]
      simp only [List.map_append, List.mem_append, List.map_cons, List.mem_cons]
      simp only [List.map_nil, List.mem_singleton]
      tauto

/-- Claim C3: the by-key interning store returns the existing id on a
repeat key with the stored value unchanged (the value argument is ignored),
every insert sharing a key resolves to the id and value fixed at first
insertion, and get looks up the id without inserting, returning none for
an absent key. -/
theorem idStoreByKey_interning_spec {K V : Type} [DecidableEq K] (ps : List (K × V)) :
    (∀ k i v w, findKey (runKeyInserts ps).entries k = some (i, v) →
      (runKeyInserts ps).insert k w = (i, runKeyInserts ps)) ∧
    (∀ k i v, findKey (runKeyInserts ps).entries k = some (i, v) →
      ∃ qs1 qs2, ps = qs1 ++ (k, v) :: qs2 ∧ k ∉ qs1.map Prod.fst) ∧
    (∀ k i v, findKey (runKeyInserts ps).entries k = some (i, v) →
      (runKeyInserts ps).get k = some i) ∧
    (∀ k, (runKeyInserts ps).get k = none ↔ k ∉ ps.map Prod.fst) := by
  have hinv := keyInv_runKeyInserts ps
  refine ⟨?_, ?_, ?_, ?_⟩
  · intro k i v w hk
    simp [IdStoreByKey.insert, hk]
  · intro k i v hk
    have h1 := (hinv.2 k i v).1 hk
    have hmem : (k, v) ∈ firstPairs ps := List.get?_mem h1.2
    rcases mem_firstPairsAux_decomp ps [] k v hmem with hl | ⟨_, qs1, qs2, hps, hq⟩
    · simp at hl
    · exact ⟨qs1, qs2, hps, hq⟩
  · intro k i v hk
    simp [IdStoreByKey.get, hk]
  · intro k
    constructor
    · intro hget hk
      obtain ⟨i, v, hfind⟩ := findKey_some_of_mem hinv (by
        rw [firstPairs]
        exact (mem_keys_firstPairsAux ps [] k).2 (Or.inr hk))
      rw [IdStoreByKey.get, hfind] at hget
      exact Option.noConfusion hget
    · intro hk
      have hnone : k ∉ (firstPairs ps).map Prod.fst := by
        rw [firstPairs]
        intro hmem
        rcases (mem_keys_firstPairsAux ps [] k).1 hmem with h | h
        · simp at h
        · exact hk h
      rw [IdStoreByKey.get, findKey_none_of_not_mem hinv hnone]
      rfl

/-- Witness for C3: after inserting key 1 with value 10 and key 1 again
with value 20, the stored value remains 10 with id 1, and get finds it. -/
theorem idStoreByKey_interning_spec_witness :
    (runKeyInserts ([(1, 10), (1, 20)] : List (Nat × Nat))).insert 1 30 =
      (1, runKeyInserts [(1, 10), (1, 20)]) :=
  (@idStoreByKey_interning_spec Nat Nat _ [(1, 10), (1, 20)]).1 1 1 10 30 (by decide)

/-! ## The glslang-side AST data model.

glslang (the external GLSL front end) supplies the AST node and type
classes used by FromGlsl.cpp.  The embedding below keeps exactly the
fields and enum members the lowering pass reads.  TOperator embeds the
subset of the (much larger) glslang operator enum that exercises every
branch shape of the two mapping functions: the fixed-tag operators, the
builtin-name operators, the sampler-dependent texture operators, the
branch (control-flow) operators, the structural operators, and EOpNull as
a representative operator recognized by neither mapping. -/

/-- glslang sampler dimensionality (TSampler::dim). -/
inductive TSamplerDim
  | esdNone
  | esd1D
  | esd2D
  | esd3D
  | esdCube
  | esdRect
  | esdBuffer
  deriving DecidableEq

/-- glslang TSampler: the fields read by the lowering pass
(isShadow(), dim, getString()). -/
structure TSampler where
  shadow : Bool
  dim : TSamplerDim
  str : String
  deriving DecidableEq

/-- glslang precision qualifier enum. -/
inductive TPrecision
  | epqNone
  | epqLow
  | epqMedium
  | epqHigh
  deriving DecidableEq

/-- glslang TQualifier: the fields read by Slurper::slurpQualifiers. -/
structure TQualifier where
  invariant : Bool
  flat : Bool
  nopersp : Bool
  smooth : Bool
  hasLayout : Bool
  isConstant : Bool
  precision : TPrecision
  deriving DecidableEq

/-- glslang basic type enum, restricted to the members slurpType
dispatches on plus ebtFloat16 as a representative unhandled member. -/
inductive TBasicType
  | ebtVoid
  | ebtFloat
  | ebtDouble
  | ebtInt
  | ebtUint
  | ebtBool
  | ebtAtomicUint
  | ebtSampler
  | ebtStruct
  | ebtBlock
  | ebtFloat16
  deriving DecidableEq

/-- glslang TType: the fields read by the lowering pass.  isArray() is
modelled as arraySizes nonempty. -/
structure TType where
  basicType : TBasicType
  isMatrix : Bool
  vectorSize : Nat
  matrixCols : Nat
  matrixRows : Nat
  arraySizes : List Nat
  qualifier : TQualifier
  sampler : TSampler
  builtIn : Bool
  typeName : String
  deriving DecidableEq

/-- glslang TOperator, embedded subset (see section comment). -/
inductive TOperator
  | EOpNull
  | EOpSequence
  | EOpLinkerObjects
  | EOpFunction
  | EOpFunctionCall
  | EOpParameters
  | EOpNegative
  | EOpLogicalNot
  | EOpPostIncrement
  | EOpAdd
  | EOpSub
  | EOpMul
  | EOpLessThan
  | EOpAssign
  | EOpIndexDirect
  | EOpVectorSwizzle
  | EOpRadians
  | EOpConstructVec3
  | EOpTexture
  | EOpTextureProj
  | EOpTextureLod
  | EOpTextureProjLod
  | EOpTextureGrad
  | EOpTextureProjGrad
  | EOpKill
  | EOpTerminateInvocation
  | EOpDemote
  | EOpTerminateRayKHR
  | EOpIgnoreIntersectionKHR
  | EOpReturn
  | EOpBreak
  | EOpContinue
  | EOpCase
  | EOpDefault
  deriving DecidableEq

/-! ## Canonical operator tags.

Modelled from the spec: RValueOperator and BranchOperator are the canonical
operator tag enums of the Pack (declared in astrict/CommonTypes.h, outside
this source file); only the members produced by the embedded TOperator
subset are listed, plus Ternary, which doubles as the placeholder tag of
the tolerant degradation path. -/

/-- Canonical value-operator tags (subset; see section comment). -/
inductive RValueOperator
  | Negative
  | LogicalNot
  | PostIncrement
  | Add
  | Sub
  | Mul
  | LessThan
  | Assign
  | Index
  | VectorSwizzle
  | Ternary
  deriving DecidableEq

/-- Canonical branch-operator tags (complete: exactly the ten members the
branch mapping can produce). -/
inductive BranchOperator
  | Discard
  | TerminateInvocation
  | Demote
  | TerminateRayEXT
  | IgnoreIntersectionEXT
  | Return
  | Break
  | Continue
  | Case
  | Default
  deriving DecidableEq

/-! ## Operator mapping (FromGlsl.cpp lines 32-715) -/

/-- textureFunctionNameForSampler (FromGlsl.cpp lines 32-54): version > 100
yields "texture" plus suffix; otherwise the name is derived from the first
argument's sampler, failing when that argument is absent or its dimension
is unhandled. -/
def textureFunctionNameForSampler (suffix arbOrExt : String) (version : Int)
    (arg1Type : Option TType) : Except String String :=
  if version > 100 then
    Except.ok ("texture" ++ suffix)
  else
    match arg1Type with
    | none => Except.error "First argument to texture function must not be null"
    | some t =>
      let base := if t.sampler.shadow then "shadow" else "texture"
      match t.sampler.dim with
      | .esd1D => Except.ok (base ++ "1D" ++ suffix ++ arbOrExt)
      | .esd2D => Except.ok (base ++ "2D" ++ suffix ++ arbOrExt)
      | .esd3D => Except.ok (base ++ "3D" ++ suffix ++ arbOrExt)
      | .esdCube => Except.ok (base ++ "Cube" ++ suffix ++ arbOrExt)
      | .esdRect => Except.ok (base ++ "2DRect" ++ suffix ++ arbOrExt)
      | _ => Except.error "Unhandled sampler dimension"

/-- constructorFunctionNameForType (FromGlsl.cpp lines 56-66): the type
name plus one [] suffix per array dimension of the result type. -/
def constructorFunctionNameForType (name : String) (returnType : TType) : String :=
  if returnType.arraySizes.isEmpty then
    name
  else
    name ++ String.join (returnType.arraySizes.map (fun _ => "[]"))

/-- glslangOperatorToRValueOperator (FromGlsl.cpp lines 68-696), restricted
to the embedded TOperator subset.  The Bool records whether the tolerant
default path logged its error before substituting the Ternary placeholder. -/
def glslangOperatorToRValueOperator (op : TOperator) (version : Int)
    (returnType : TType) (arg1Type : Option TType) :
    Except String (Bool × (RValueOperator ⊕ String)) :=
  match op with
  | .EOpNegative => Except.ok (false, Sum.inl RValueOperator.Negative)
  | .EOpLogicalNot => Except.ok (false, Sum.inl RValueOperator.LogicalNot)
  | .EOpPostIncrement => Except.ok (false, Sum.inl RValueOperator.PostIncrement)
  | .EOpAdd => Except.ok (false, Sum.inl RValueOperator.Add)
  | .EOpSub => Except.ok (false, Sum.inl RValueOperator.Sub)
  | .EOpMul => Except.ok (false, Sum.inl RValueOperator.Mul)
  | .EOpLessThan => Except.ok (false, Sum.inl RValueOperator.LessThan)
  | .EOpAssign => Except.ok (false, Sum.inl RValueOperator.Assign)
  | .EOpIndexDirect => Except.ok (false, Sum.inl RValueOperator.Index)
  | .EOpVectorSwizzle => Except.ok (false, Sum.inl RValueOperator.VectorSwizzle)
  | .EOpRadians => Except.ok (false, Sum.inr "radians")
  | .EOpConstructVec3 =>
    Except.ok (false, Sum.inr (constructorFunctionNameForType "vec3" returnType))
  | .EOpTexture =>
    (textureFunctionNameForSampler "" "" version arg1Type).map
      (fun s => (false, Sum.inr s))
  | .EOpTextureProj =>
    (textureFunctionNameForSampler "Proj" "" version arg1Type).map
      (fun s => (false, Sum.inr s))
  | .EOpTextureLod =>
    (textureFunctionNameForSampler "Lod" "" version arg1Type).map
      (fun s => (false, Sum.inr s))
  | .EOpTextureProjLod =>
    (textureFunctionNameForSampler "ProjLod" "" version arg1Type).map
      (fun s => (false, Sum.inr s))
  | .EOpTextureGrad =>
    (textureFunctionNameForSampler "Grad" "ARB" version arg1Type).map
      (fun s => (false, Sum.inr s))
  | .EOpTextureProjGrad =>
    (textureFunctionNameForSampler "ProjGrad" "ARB" version arg1Type).map
      (fun s => (false, Sum.inr s))
  | _ => Except.ok (true, Sum.inl RValueOperator.Ternary)

/-- glslangOperatorToBranchOperator (FromGlsl.cpp lines 698-715): a
disjoint mapping that fails (PANIC_PRECONDITION) on every operator outside
its ten recognized members. -/
def glslangOperatorToBranchOperator (op : TOperator) : Except String BranchOperator :=
  match op with
  | .EOpKill => Except.ok BranchOperator.Discard
  | .EOpTerminateInvocation => Except.ok BranchOperator.TerminateInvocation
  | .EOpDemote => Except.ok BranchOperator.Demote
  | .EOpTerminateRayKHR => Except.ok BranchOperator.TerminateRayEXT
  | .EOpIgnoreIntersectionKHR => Except.ok BranchOperator.IgnoreIntersectionEXT
  | .EOpReturn => Except.ok BranchOperator.Return
  | .EOpBreak => Except.ok BranchOperator.Break
  | .EOpContinue => Except.ok BranchOperator.Continue
  | .EOpCase => Except.ok BranchOperator.Case
  | .EOpDefault => Except.ok BranchOperator.Default
  | _ => Except.error "Cannot convert operator to BranchOperator"

/-- The operators the value-producing mapping recognizes (the explicit
case labels of its switch, within the embedded subset). -/
def recognizedRValueOps : List TOperator :=
  [.EOpNegative, .EOpLogicalNot, .EOpPostIncrement, .EOpAdd, .EOpSub, .EOpMul,
   .EOpLessThan, .EOpAssign, .EOpIndexDirect, .EOpVectorSwizzle, .EOpRadians,
   .EOpConstructVec3, .EOpTexture, .EOpTextureProj, .EOpTextureLod,
   .EOpTextureProjLod, .EOpTextureGrad, .EOpTextureProjGrad]

/-- The operators the branch mapping recognizes (the explicit case labels
of its switch). -/
def branchSourceOps : List TOperator :=
  [.EOpKill, .EOpTerminateInvocation, .EOpDemote, .EOpTerminateRayKHR,
   .EOpIgnoreIntersectionKHR, .EOpReturn, .EOpBreak, .EOpContinue,
   .EOpCase, .EOpDefault]

/-- Claim C4: every operator outside the recognized set of the
value-producing mapping logs an error and yields the placeholder Ternary
tag (an ok result, so the pass continues), while the disjoint branch
mapping fails unrecoverably on every operator outside its recognized set
and maps that set exactly to Discard, TerminateInvocation, Demote,
TerminateRayEXT, IgnoreIntersectionEXT, Return, Break, Continue, Case,
Default. -/
theorem operator_mapping_error_policy :
    (∀ op version returnType arg1Type, op ∉ recognizedRValueOps →
      glslangOperatorToRValueOperator op version returnType arg1Type =
        Except.ok (true, Sum.inl RValueOperator.Ternary)) ∧
    (∀ op, op ∉ branchSourceOps →
      glslangOperatorToBranchOperator op =
        Except.error "Cannot convert operator to BranchOperator") ∧
    branchSourceOps.map glslangOperatorToBranchOperator =
      [BranchOperator.Discard, BranchOperator.TerminateInvocation,
       BranchOperator.Demote, BranchOperator.TerminateRayEXT,
       BranchOperator.IgnoreIntersectionEXT, BranchOperator.Return,
       BranchOperator.Break, BranchOperator.Continue, BranchOperator.Case,
       BranchOperator.Default].map Except.ok := by
  refine ⟨?_, ?_, rfl⟩
  · intro op version returnType arg1Type h
    cases op <;> first
      | rfl
      | exact absurd (by decide) h
  · intro op h
    cases op <;> first
      | rfl
      | exact absurd (by decide) h

/-- Sample fixtures used by witnesses. -/
def plainQualifier : TQualifier :=
  ⟨false, false, false, false, false, false, TPrecision.epqNone⟩

/-- A non-shadow 2D sampler fixture. -/
def plainSampler : TSampler := ⟨false, TSamplerDim.esd2D, "sampler2D"⟩

/-- A scalar float type fixture. -/
def floatTType : TType :=
  ⟨TBasicType.ebtFloat, false, 1, 0, 0, [], plainQualifier, plainSampler, false, ""⟩

/-- Witness for C4: EOpNull (recognized by neither mapping) takes the
tolerant path in the value mapping and the fatal path in the branch
mapping. -/
theorem operator_mapping_error_policy_witness :
    glslangOperatorToRValueOperator TOperator.EOpNull 310 floatTType none =
      Except.ok (true, Sum.inl RValueOperator.Ternary) ∧
    glslangOperatorToBranchOperator TOperator.EOpNull =
      Except.error "Cannot convert operator to BranchOperator" :=
  ⟨operator_mapping_error_policy.1 TOperator.EOpNull 310 floatTType none (by decide),
   operator_mapping_error_policy.2.1 TOperator.EOpNull (by decide)⟩

/-- The dimension fragment of a version-100 texture function name, for the
sampler dimensions the naming function handles. -/
def samplerDimFragment : TSamplerDim → Option String
  | .esd1D => some "1D"
  | .esd2D => some "2D"
  | .esd3D => some "3D"
  | .esdCube => some "Cube"
  | .esdRect => some "2DRect"
  | _ => none

/-- Claim C5: with shaderVersion > 100 the sampler-dependent naming
function yields "texture" plus the suffix regardless of the first
argument; with shaderVersion <= 100 it builds the name from the first
argument's sampler shadow-ness and dimensionality plus the suffix and
ARB/EXT tag, failing when the argument type is missing or the dimension
is unhandled; and the six texture operators route through it with their
suffix and tag. -/
theorem textureFunctionNameForSampler_spec :
    (∀ suffix arb version arg1, version > 100 →
      textureFunctionNameForSampler suffix arb version arg1 =
        Except.ok ("texture" ++ suffix)) ∧
    (∀ suffix arb version, version ≤ 100 →
      ∃ e, textureFunctionNameForSampler suffix arb version none = Except.error e) ∧
    (∀ suffix arb version t d, version ≤ 100 →
      samplerDimFragment t.sampler.dim = some d →
      textureFunctionNameForSampler suffix arb version (some t) =
        Except.ok ((if t.sampler.shadow then "shadow" else "texture") ++
          d ++ suffix ++ arb)) ∧
    (∀ suffix arb version t, version ≤ 100 →
      samplerDimFragment t.sampler.dim = none →
      ∃ e, textureFunctionNameForSampler suffix arb version (some t) =
        Except.error e) ∧
    (∀ version rt a1,
      glslangOperatorToRValueOperator TOperator.EOpTexture version rt a1 =
        (textureFunctionNameForSampler "" "" version a1).map
          (fun s => (false, Sum.inr s)) ∧
      glslangOperatorToRValueOperator TOperator.EOpTextureProj version rt a1 =
        (textureFunctionNameForSampler "Proj" "" version a1).map
          (fun s => (false, Sum.inr s)) ∧
      glslangOperatorToRValueOperator TOperator.EOpTextureLod version rt a1 =
        (textureFunctionNameForSampler "Lod" "" version a1).map
          (fun s => (false, Sum.inr s)) ∧
      glslangOperatorToRValueOperator TOperator.EOpTextureProjLod version rt a1 =
        (textureFunctionNameForSampler "ProjLod" "" version a1).map
          (fun s => (false, Sum.inr s)) ∧
      glslangOperatorToRValueOperator TOperator.EOpTextureGrad version rt a1 =
        (textureFunctionNameForSampler "Grad" "ARB" version a1).map
          (fun s => (false, Sum.inr s)) ∧
      glslangOperatorToRValueOperator TOperator.EOpTextureProjGrad version rt a1 =
        (textureFunctionNameForSampler "ProjGrad" "ARB" version a1).map
          (fun s => (false, Sum.inr s))) := by
  refine ⟨?_, ?_, ?_, ?_, ?_⟩
  · intro suffix arb version arg1 h
    rw [textureFunctionNameForSampler.eq_def, if_pos h]
  · intro suffix arb version h
    rw [textureFunctionNameForSampler.eq_def, if_neg (by omega)]
    exact ⟨_, rfl⟩
  · intro suffix arb version t d h hd
    rw [textureFunctionNameForSampler.eq_def, if_neg (by omega)]
    cases ht : t.sampler.dim <;>
      simp only [samplerDimFragment, ht] at hd <;>
      first
        | exact Option.noConfusion hd
        | (rw [Option.some_inj] at hd; simp [ht, ← hd])
  · intro suffix arb version t h hd
    rw [textureFunctionNameForSampler.eq_def, if_neg (by omega)]
    cases ht : t.sampler.dim <;>
      simp only [samplerDimFragment, ht] at hd <;>
      first
        | exact Option.noConfusion hd
        | exact ⟨"Unhandled sampler dimension", by simp [ht]⟩
  · intro version rt a1
    exact ⟨rfl, rfl, rfl, rfl, rfl, rfl⟩

/-- Witness for C5: one call per arm at concrete inputs. -/
theorem textureFunctionNameForSampler_spec_witness :
    textureFunctionNameForSampler "Lod" "" 300 none = Except.ok "textureLod" ∧
    textureFunctionNameForSampler "Grad" "ARB" 100 (some floatTType) =
      Except.ok "texture2DGradARB" := by
  constructor
  · exact textureFunctionNameForSampler_spec.1 "Lod" "" 300 none (by decide)
  · have h := textureFunctionNameForSampler_spec.2.2.1 "Grad" "ARB" 100 floatTType
      "2D" (by decide) (by decide)
    simpa using h

/-! ## Qualifier lowering (FromGlsl.cpp lines 947-982) -/

/-- Slurper::slurpQualifiers: build the qualifier text by appending, in
fixed order, each present qualifier word followed by a space (the layout
parameter contents are dropped, leaving "layout() "); an empty text yields
no StringId, otherwise the text is interned. -/
def slurpQualifiers (q : TQualifier) (strings : IdStoreByValue String) :
    Option Nat × IdStoreByValue String :=
  let s :=
    (if q.invariant then "invariant " else "")
    ++ (if q.flat then "flat " else "")
    ++ (if q.nopersp then "noperspective " else "")
    ++ (if q.smooth then "smooth " else "")
    ++ (if q.hasLayout then "layout() " else "")
    ++ (if q.isConstant then "const " else "")
    ++ (match q.precision with
        | TPrecision.epqLow => "lowp "
        | TPrecision.epqMedium => "mediump "
        | TPrecision.epqHigh => "highp "
        | TPrecision.epqNone => "")
  if s.isEmpty then
    (none, strings)
  else
    let r := strings.insert s
    (some r.1, r.2)

/-- The present qualifier words, in the fixed order the code emits them. -/
def qualifierTokens (q : TQualifier) : List String :=
  (if q.invariant then ["invariant"] else [])
  ++ (if q.flat then ["flat"] else [])
  ++ (if q.nopersp then ["noperspective"] else [])
  ++ (if q.smooth then ["smooth"] else [])
  ++ (if q.hasLayout then ["layout()"] else [])
  ++ (if q.isConstant then ["const"] else [])
  ++ (match q.precision with
      | TPrecision.epqLow => ["lowp"]
      | TPrecision.epqMedium => ["mediump"]
      | TPrecision.epqHigh => ["highp"]
      | TPrecision.epqNone => [])

/-- Modelled from the spec: the qualifier text as claim C6 words it, the
present qualifiers in fixed order joined with single spaces (no trailing
space). -/
def qualifierTextSpec (q : TQualifier) : String :=
  String.intercalate " " (qualifierTokens q)

/-- The qualifier text the code actually builds: every present word is
followed by one space, so a nonempty text carries a trailing space. -/
def qualifierTextCode (q : TQualifier) : String :=
  String.join ((qualifierTokens q).map (fun t => t ++ " "))

theorem slurpQualifiers_builds_tokenText (q : TQualifier)
    (strings : IdStoreByValue String) :
    slurpQualifiers q strings =
      (if (qualifierTextCode q).isEmpty then (none, strings)
       else ((strings.insert (qualifierTextCode q)).1,
         (strings.insert (qualifierTextCode q)).2)) := by
  obtain ⟨i, f, np, sm, lay, c, p⟩ := q
  cases i <;> cases f <;> cases np <;> cases sm <;> cases lay <;> cases c <;>
    cases p <;> rfl

theorem qualifierTextCode_empty_iff (q : TQualifier) :
    (qualifierTextCode q).isEmpty = true ↔ qualifierTokens q = [] := by
  obtain ⟨i, f, np, sm, lay, c, p⟩ := q
  cases i <;> cases f <;> cases np <;> cases sm <;> cases lay <;> cases c <;>
    cases p <;> decide

/-- A qualifier record with only the invariant flag set. -/
def invariantOnlyQualifier : TQualifier :=
  ⟨true, false, false, false, false, false, TPrecision.epqNone⟩

/-- Counterexample to C6 as stated: for an invariant-only qualifier the
interned text is "invariant " (each emitted word is followed by a space,
leaving a trailing one), which differs from the space-joined text
"invariant" the claim describes. -/
theorem slurpQualifiers_trailing_space_counterexample :
    slurpQualifiers invariantOnlyQualifier (IdStoreByValue.empty String) =
      (some 1, ⟨1, [("invariant ", 1)]⟩) ∧
    qualifierTextSpec invariantOnlyQualifier = "invariant" ∧
    ("invariant " : String) ≠ "invariant" := by
  refine ⟨rfl, rfl, by decide⟩

/-- Claim C6 (amended): the qualifier text is built from exactly the
present qualifiers in the fixed order invariant, flat, noperspective,
smooth, layout() with parameter contents dropped, const, then one of
lowp/mediump/highp, each word followed by a single space (so the text ends
in a trailing space); when no qualifier is present the result is absent
(no StringId is interned), never an empty string. -/
theorem slurpQualifiers_text_spec (q : TQualifier) (strings : IdStoreByValue String) :
    ((slurpQualifiers q strings).1 = none ↔ qualifierTokens q = []) ∧
    (∀ i st2, slurpQualifiers q strings = (some i, st2) →
      findValue st2.entries (qualifierTextCode q) = some i) := by
  rw [slurpQualifiers_builds_tokenText q strings]
  by_cases he : (qualifierTextCode q).isEmpty = true
  · rw [if_pos he]
    refine ⟨by simp [(qualifierTextCode_empty_iff q).1 he], ?_⟩
    intro i st2 h
    exact absurd (congrArg Prod.fst h) (by simp)
  · rw [if_neg he]
    constructor
    · simp only []
      constructor
      · intro h
        exact absurd (congrArg Option.isSome h) (by simp)
      · intro h
        rw [← qualifierTextCode_empty_iff q] at h
        exact absurd h he
    · intro i st2 h
      have h1 : (strings.insert (qualifierTextCode q)).1 = i := by
        have := congrArg Prod.fst h
        simpa using this
      have h2 : (strings.insert (qualifierTextCode q)).2 = st2 := by
        have := congrArg Prod.snd h
        simpa using this
      rw [← h1, ← h2]
      rw [IdStoreByValue.insert]
      cases hf : findValue strings.entries (qualifierTextCode q) with
      | some j => simpa [hf] using hf
      | none => simp [hf, findValue]

/-- Witness for C6 (amended): flat plus highp interns "flat highp ". -/
theorem slurpQualifiers_text_spec_witness :
    findValue ((slurpQualifiers
        ⟨false, true, false, false, false, false, TPrecision.epqHigh⟩
        (IdStoreByValue.empty String)).2).entries "flat highp " = some 1 := by
  have h := (slurpQualifiers_text_spec
    ⟨false, true, false, false, false, false, TPrecision.epqHigh⟩
    (IdStoreByValue.empty String)).2 1
    ((slurpQualifiers ⟨false, true, false, false, false, false, TPrecision.epqHigh⟩
      (IdStoreByValue.empty String)).2) (by rfl)
  simpa using h

/-! ## Pack-side data model.

Modelled from the spec: the id-carrying value types of the Pack (declared
in astrict/CommonTypes.h, outside this source file): Symbol, Type, the
RValue variant, ValueId, Statement, FunctionDefinition.  Ids are bare
naturals; the ValueId variant keeps the three id spaces apart exactly as
the C++ std::variant does. -/

/-- glslang TConstUnion: a scalar constant tagged with its basic type.
The double payload is represented by its bit pattern as a numeral; only
its equality matters to the lowering pass. -/
inductive TConstUnion
  | i8Const (v : Int)
  | u8Const (v : Nat)
  | i16Const (v : Int)
  | u16Const (v : Nat)
  | iConst (v : Int)
  | uConst (v : Nat)
  | i64Const (v : Int)
  | u64Const (v : Nat)
  | dConst (bits : Nat)
  | bConst (b : Bool)
  | strConst (s : String)
  deriving DecidableEq

/-- A literal scalar constant of the Pack. -/
structure LiteralRValue where
  value : TConstUnion
  deriving DecidableEq

/-- constUnionToLiteralRValue (FromGlsl.cpp lines 741-756): supported
scalar kinds carry over; 64-bit integers and strings are fatal. -/
def constUnionToLiteralRValue : TConstUnion → Except String LiteralRValue
  | .i64Const _ => Except.error "Unsupported type Int64"
  | .u64Const _ => Except.error "Unsupported type Uint64"
  | .strConst _ => Except.error "Unsupported type String"
  | u => Except.ok ⟨u⟩

/-- ValueId: GlobalSymbolId, LocalSymbolId or RValueId. -/
inductive ValueId
  | globalSym (i : Nat)
  | localSym (i : Nat)
  | rvalue (i : Nat)
  deriving DecidableEq

/-- A named, optionally typed symbol; the type is absent only for builtin
symbols. -/
structure Symbol where
  name : Nat
  type : Option Nat
  deriving DecidableEq

/-- The canonical Type record: interned name, optional interned qualifier
text, ordered array dimension sizes. -/
structure Ty where
  name : Nat
  qualifiers : Option Nat
  arraySizes : List Nat
  deriving DecidableEq

/-- The RValue variant: a scalar literal or an evaluable node whose
operator is a tag or an interned function id. -/
inductive RValue
  | literal (l : LiteralRValue)
  | evaluable (op : RValueOperator ⊕ Nat) (args : List ValueId)
  deriving DecidableEq

/-- One statement of a statement block. -/
inductive Statement
  | rvalueStmt (i : Nat)
  | ifStmt (cond : ValueId) (trueBlock : Nat) (falseBlock : Option Nat)
  | loopStmt (cond : ValueId) (terminal : Option Nat) (testFirst : Bool) (body : Nat)
  | switchStmt (cond : ValueId) (body : Nat)
  | branchStmt (op : BranchOperator) (operand : Option ValueId)
  deriving DecidableEq

/-- A finished function definition. -/
structure FunctionDefinition where
  functionId : Nat
  returnType : Nat
  parameters : List Nat
  body : Nat
  locals : List (Nat × Symbol)
  deriving DecidableEq

/-! ## The glslang AST nodes the lowering pass dispatches on. -/

/-- The AST node shapes read by the pass, with the fields it accesses.
Symbol nodes carry the stable per-declaration id, getAccessName() and
getName(); aggregates carry their operator, type, name and children. -/
inductive AstNode
  | constantUnion (ty : TType) (values : List TConstUnion)
  | symbol (declId : Int) (accessName : String) (symName : String) (ty : TType)
  | unary (op : TOperator) (ty : TType) (operand : AstNode)
  | binary (op : TOperator) (ty : TType) (left : AstNode) (right : AstNode)
  | selection (ty : TType) (cond : AstNode) (trueBlock : AstNode)
      (falseBlock : Option AstNode)
  | aggregate (op : TOperator) (ty : TType) (aggName : String)
      (children : List AstNode)
  | loop (test : AstNode) (terminal : Option AstNode) (testFirst : Bool)
      (body : AstNode)
  | branch (flowOp : TOperator) (expression : Option AstNode)
  | switchNode (cond : AstNode) (body : AstNode)

/-- getAsTyped(): every expression-shaped node is typed; loop, branch and
switch nodes are not. -/
def AstNode.isTyped : AstNode → Bool
  | .loop _ _ _ _ => false
  | .branch _ _ => false
  | .switchNode _ _ => false
  | _ => true

/-- getType() of a typed node. -/
def AstNode.getType? : AstNode → Option TType
  | .constantUnion t _ => some t
  | .symbol _ _ _ t => some t
  | .unary _ t _ => some t
  | .binary _ t _ _ => some t
  | .selection t _ _ _ => some t
  | .aggregate _ t _ _ => some t
  | _ => none

/-- TIntermConstantUnion::isVector(), from the node type. -/
def TType.isVector (t : TType) : Bool := 1 < t.vectorSize

/-! ## The Slurper state: one owned set of interning tables. -/

/-- LocalSymbols: the per-function keyed store of local symbols. -/
def LocalSymbols : Type := IdStoreByKey Int Symbol

instance : DecidableEq LocalSymbols := fun a b =>
  inferInstanceAs (Decidable (IdStoreByKey.mk a.lastId a.entries = ⟨b.lastId, b.entries⟩))

/-- The mutable members of class Slurper (mStructs is declared in the
source but never used and is omitted). -/
structure SlurperState where
  version : Int
  strings : IdStoreByValue String
  types : IdStoreByValue Ty
  globalSymbols : IdStoreByKey Int Symbol
  rvalues : IdStoreByValue RValue
  functionNames : IdStoreByValue String
  statementBlocks : IdStoreByValue (List Statement)
  functionDefinitions : List (Nat × FunctionDefinition)
  functionPrototypes : List Nat
  globalSymbolDefinitionsInOrder : List (Nat × ValueId)
  functionDefinitionsInOrder : List Nat
  deriving DecidableEq

/-- The state of a freshly constructed Slurper. -/
def initialState (version : Int) : SlurperState :=
  ⟨version, IdStoreByValue.empty String, IdStoreByValue.empty Ty,
   IdStoreByKey.empty Int Symbol, IdStoreByValue.empty RValue,
   IdStoreByValue.empty String, IdStoreByValue.empty (List Statement),
   [], [], [], []⟩

/-! ## Type lowering (FromGlsl.cpp lines 717-739 and 984-1099) -/

/-- The float/matrix name table of slurpType. -/
def FLOAT_TYPE_NAMES : List String :=
  ["float", "vec2", "vec3", "vec4", "mat2", "mat2x3", "mat2x4", "mat3x2",
   "mat3", "mat3x4", "mat4x2", "mat4x3", "mat4"]

/-- The double/matrix name table of slurpType. -/
def DOUBLE_TYPE_NAMES : List String :=
  ["double", "dvec2", "dvec3", "dvec4", "dmat2", "dmat2x3", "dmat2x4",
   "dmat3x2", "dmat3", "dmat3x4", "dmat4x2", "dmat4x3", "dmat4"]

/-- The int vector name table of slurpType. -/
def INT_TYPE_NAMES : List String := ["int", "ivec2", "ivec3", "ivec4"]

/-- The uint vector name table of slurpType. -/
def UINT_TYPE_NAMES : List String := ["uint", "uvec2", "uvec3", "uvec4"]

/-- The bool vector name table of slurpType. -/
def BOOL_TYPE_NAMES : List String := ["bool", "bvec2", "bvec3", "bvec4"]

/-- expandTypeNameToVector: index the table by vectorSize in 1..4. -/
def expandTypeNameToVector (typeNames : List String) (vectorSize : Nat) :
    Except String String :=
  if 1 ≤ vectorSize ∧ vectorSize ≤ 4 then
    Except.ok (typeNames.getD (vectorSize - 1) "")
  else
    Except.error "vectorSize must be between 1 and 4"

/-- expandTypeNameToVectorOrMatrix: vector entries first, then the
column-major matrix entries with cols and rows in 2..4. -/
def expandTypeNameToVectorOrMatrix (typeNames : List String) (isMatrix : Bool)
    (vectorSize matrixCols matrixRows : Nat) : Except String String :=
  if isMatrix then
    if 2 ≤ matrixCols ∧ matrixCols ≤ 4 then
      if 2 ≤ matrixRows ∧ matrixRows ≤ 4 then
        Except.ok (typeNames.getD (4 + (matrixCols - 2) * 3 + (matrixRows - 2)) "")
      else
        Except.error "matrixRows must be between 2 and 4"
    else
      Except.error "matrixCols must be between 2 and 4"
  else
    expandTypeNameToVector typeNames vectorSize

/-- Slurper::slurpType: resolve the basic-type name, intern it, intern the
qualifier text, and intern the canonical Type record. -/
def slurpType (t : TType) (st : SlurperState) : Except String (Nat × SlurperState) :=
  match (match t.basicType with
    | .ebtVoid => Except.ok "void"
    | .ebtFloat => expandTypeNameToVectorOrMatrix FLOAT_TYPE_NAMES t.isMatrix
        t.vectorSize t.matrixCols t.matrixRows
    | .ebtDouble => expandTypeNameToVectorOrMatrix DOUBLE_TYPE_NAMES t.isMatrix
        t.vectorSize t.matrixCols t.matrixRows
    | .ebtInt => expandTypeNameToVector INT_TYPE_NAMES t.vectorSize
    | .ebtUint => expandTypeNameToVector UINT_TYPE_NAMES t.vectorSize
    | .ebtBool => expandTypeNameToVector BOOL_TYPE_NAMES t.vectorSize
    | .ebtAtomicUint => Except.ok "atomic_uint"
    | .ebtSampler => Except.ok t.sampler.str
    | .ebtStruct => Except.ok t.typeName
    | .ebtBlock => Except.ok t.typeName
    | _ => Except.error "Cannot convert glslang type to Type") with
  | Except.error e => Except.error e
  | Except.ok typeName =>
    let r1 := st.strings.insert typeName
    let st1 := {st with strings := r1.2}
    let r2 := slurpQualifiers t.qualifier st1.strings
    let st2 := {st1 with strings := r2.2}
    let r3 := st2.types.insert ⟨r1.1, r2.1, t.arraySizes⟩
    Except.ok (r3.1, {st2 with types := r3.2})

/-- Slurper::slurpGlobalSymbol: lower the type, intern the access name,
and key-intern the symbol by its declaration id. -/
def slurpGlobalSymbol (declId : Int) (accessName : String) (ty : TType)
    (st : SlurperState) : Except String (Nat × SlurperState) :=
  match slurpType ty st with
  | Except.error e => Except.error e
  | Except.ok (typeId, st1) =>
    let r := st1.strings.insert accessName
    let st2 := {st1 with strings := r.2}
    let g := st2.globalSymbols.insert declId ⟨r.1, some typeId⟩
    Except.ok (g.1, {st2 with globalSymbols := g.2})

/-- Slurper::slurpOperator: resolve the operator through the mapping and
intern a builtin function name result. -/
def slurpOperator (op : TOperator) (returnType : TType) (arg1Type : Option TType)
    (st : SlurperState) : Except String ((RValueOperator ⊕ Nat) × SlurperState) :=
  match glslangOperatorToRValueOperator op st.version returnType arg1Type with
  | Except.error e => Except.error e
  | Except.ok (_, Sum.inl rop) => Except.ok (Sum.inl rop, st)
  | Except.ok (_, Sum.inr name) =>
    let r := st.functionNames.insert name
    Except.ok (Sum.inr r.1, {st with functionNames := r.2})

/-! ## Expression lowering (FromGlsl.cpp lines 1270-1459) -/

/-- The switch on constArray.size() choosing the synthetic constructor
name of a short-vector constant. -/
def vectorConstructorName : Nat → Except String String
  | 2 => Except.ok "vec2"
  | 3 => Except.ok "vec3"
  | 4 => Except.ok "vec4"
  | _ => Except.error "Unsupported ConstArray size"

/-- The element loop of slurpValueFromConstantUnion: intern each element
literal in order. -/
def insertElementLiterals : List TConstUnion → SlurperState →
    Except String (List ValueId × SlurperState)
  | [], st => Except.ok ([], st)
  | u :: us, st =>
    match constUnionToLiteralRValue u with
    | Except.error e => Except.error e
    | Except.ok lit =>
      let r := st.rvalues.insert (RValue.literal lit)
      match insertElementLiterals us {st with rvalues := r.2} with
      | Except.error e => Except.error e
      | Except.ok (args, st2) => Except.ok (ValueId.rvalue r.1 :: args, st2)

/-- Slurper::slurpValueFromConstantUnion: a single value interns as a
literal; several values must form a 2-4 element vector and lower to a
synthetic vec2/vec3/vec4 call over the individually interned element
literals. -/
def slurpValueFromConstantUnion (ty : TType) (values : List TConstUnion)
    (st : SlurperState) : Except String (ValueId × SlurperState) :=
  match values with
  | [] => Except.error "ConstantUnion value array must not be empty"
  | [u] =>
    match constUnionToLiteralRValue u with
    | Except.error e => Except.error e
    | Except.ok lit =>
      let r := st.rvalues.insert (RValue.literal lit)
      Except.ok (ValueId.rvalue r.1, {st with rvalues := r.2})
  | _ =>
    if ty.isVector then
      match vectorConstructorName values.length with
      | Except.error e => Except.error e
      | Except.ok functionName =>
        let rf := st.functionNames.insert functionName
        let st1 := {st with functionNames := rf.2}
        match insertElementLiterals values st1 with
        | Except.error e => Except.error e
        | Except.ok (args, st2) =>
          let ri := st2.rvalues.insert (RValue.evaluable (Sum.inr rf.1) args)
          Except.ok (ValueId.rvalue ri.1, {st2 with rvalues := ri.2})
    else
      Except.error "ConstantUnion with multiple values must be a vector"

/-- Slurper::slurpValueFromSymbol: a known global is reused by id; an
unseen builtin registers as an untyped global; otherwise the symbol
registers in the local scope, keyed by declaration id. -/
def slurpValueFromSymbol (declId : Int) (accessName : String) (ty : TType)
    (st : SlurperState) (ls : LocalSymbols) :
    Except String (ValueId × SlurperState × LocalSymbols) :=
  match st.globalSymbols.get declId with
  | some gid => Except.ok (ValueId.globalSym gid, st, ls)
  | none =>
    let r := st.strings.insert accessName
    let st1 := {st with strings := r.2}
    if ty.builtIn then
      let g := st1.globalSymbols.insert declId ⟨r.1, none⟩
      Except.ok (ValueId.globalSym g.1, {st1 with globalSymbols := g.2}, ls)
    else
      match slurpType ty st1 with
      | Except.error e => Except.error e
      | Except.ok (typeId, st2) =>
        let lr := ls.insert declId ⟨r.1, some typeId⟩
        Except.ok (ValueId.localSym lr.1, st2, lr.2)

mutual

/-- Slurper::slurpValue: dispatch in the fixed order constant, symbol,
unary, binary (swizzle special-cased), selection-as-ternary, aggregate
(function call, banned structural kinds, generic operator). -/
def slurpValue (node : AstNode) (st : SlurperState) (ls : LocalSymbols) :
    Except String (ValueId × SlurperState × LocalSymbols) :=
  match node with
  | .constantUnion ty values =>
    match slurpValueFromConstantUnion ty values st with
    | Except.error e => Except.error e
    | Except.ok (v, st1) => Except.ok (v, st1, ls)
  | .symbol declId accessName _ ty => slurpValueFromSymbol declId accessName ty st ls
  | .unary op ty operand =>
    match slurpValue operand st ls with
    | Except.error e => Except.error e
    | Except.ok (operandId, st1, ls1) =>
      match slurpOperator op ty operand.getType? st1 with
      | Except.error e => Except.error e
      | Except.ok (opv, st2) =>
        let ri := st2.rvalues.insert (RValue.evaluable opv [operandId])
        Except.ok (ValueId.rvalue ri.1, {st2 with rvalues := ri.2}, ls1)
  | .binary op ty lhs rhs =>
    match op with
    | .EOpVectorSwizzle =>
      match rhs with
      | .aggregate rop _ _ _ =>
        if rop = .EOpSequence then
          let ri := st.rvalues.insert (RValue.evaluable (Sum.inl RValueOperator.VectorSwizzle) [])
          Except.ok (ValueId.rvalue ri.1, {st with rvalues := ri.2}, ls)
        else
          Except.error "Swizzle node must be a sequence"
      | _ => Except.error "Swizzle node must be an aggregate"
    | _ =>
      match slurpValue lhs st ls with
      | Except.error e => Except.error e
      | Except.ok (lhsId, st1, ls1) =>
        match slurpValue rhs st1 ls1 with
        | Except.error e => Except.error e
        | Except.ok (rhsId, st2, ls2) =>
          match slurpOperator op ty lhs.getType? st2 with
          | Except.error e => Except.error e
          | Except.ok (opv, st3) =>
            let ri := st3.rvalues.insert (RValue.evaluable opv [lhsId, rhsId])
            Except.ok (ValueId.rvalue ri.1, {st3 with rvalues := ri.2}, ls2)
  | .selection ty cond trueBlock falseBlock =>
    match falseBlock with
    | some falseNode =>
      match slurpValue cond st ls with
      | Except.error e => Except.error e
      | Except.ok (condId, st1, ls1) =>
        if trueBlock.isTyped && falseNode.isTyped then
          match slurpValue trueBlock st1 ls1 with
          | Except.error e => Except.error e
          | Except.ok (trueId, st2, ls2) =>
            match slurpValue falseNode st2 ls2 with
            | Except.error e => Except.error e
            | Except.ok (falseId, st3, ls3) =>
              let ri := st3.rvalues.insert
                (RValue.evaluable (Sum.inl RValueOperator.Ternary) [condId, trueId, falseId])
              Except.ok (ValueId.rvalue ri.1, {st3 with rvalues := ri.2}, ls3)
        else
          Except.error "A selection node branch was not typed"
    | none =>
      match slurpValue cond st ls with
      | Except.error e => Except.error e
      | Except.ok _ => Except.error "A selection node branch was not typed"
  | .aggregate op ty aggName children =>
    match op with
    | .EOpFunction => Except.error "Cannot convert to statement"
    | .EOpLinkerObjects => Except.error "Cannot convert to statement"
    | .EOpParameters => Except.error "Cannot convert to statement"
    | .EOpSequence => Except.error "Cannot convert to statement"
    | .EOpFunctionCall =>
      let rf := st.functionNames.insert aggName
      let st0 := {st with functionNames := rf.2}
      match slurpValueArgs children st0 ls with
      | Except.error e => Except.error e
      | Except.ok (args, st1, ls1) =>
        let ri := st1.rvalues.insert (RValue.evaluable (Sum.inr rf.1) args)
        Except.ok (ValueId.rvalue ri.1, {st1 with rvalues := ri.2}, ls1)
    | _ =>
      match slurpValueArgs children st ls with
      | Except.error e => Except.error e
      | Except.ok (args, st1, ls1) =>
        let arg1Type := match children with
          | [] => none
          | c :: _ => c.getType?
        match slurpOperator op ty arg1Type st1 with
        | Except.error e => Except.error e
        | Except.ok (opv, st2) =>
          let ri := st2.rvalues.insert (RValue.evaluable opv args)
          Except.ok (ValueId.rvalue ri.1, {st2 with rvalues := ri.2}, ls1)
  | _ => Except.error "Cannot convert to statement"

/-- The argument loop shared by function-call and generic aggregates. -/
def slurpValueArgs (nodes : List AstNode) (st : SlurperState) (ls : LocalSymbols) :
    Except String (List ValueId × SlurperState × LocalSymbols) :=
  match nodes with
  | [] => Except.ok ([], st, ls)
  | n :: ns =>
    match slurpValue n st ls with
    | Except.error e => Except.error e
    | Except.ok (v, st1, ls1) =>
      match slurpValueArgs ns st1 ls1 with
      | Except.error e => Except.error e
      | Except.ok (vs, st2, ls2) => Except.ok (v :: vs, st2, ls2)

end

/-! ## Persistence lemmas for by-value stores -/

theorem findValue_insert_self {V : Type} [DecidableEq V] (s : IdStoreByValue V) (v : V) :
    findValue ((s.insert v).2).entries v = some (s.insert v).1 := by
  rw [IdStoreByValue.insert]
  cases hf : findValue s.entries v with
  | some i => simpa using hf
  | none => simp [findValue]

theorem findValue_insert_preserve {V : Type} [DecidableEq V] (s : IdStoreByValue V)
    (v w : V) (j : Nat) (h : findValue s.entries w = some j) :
    findValue ((s.insert v).2).entries w = some j := by
  rw [IdStoreByValue.insert]
  cases hf : findValue s.entries v with
  | some i => simpa using h
  | none =>
    simp only [findValue]
    by_cases hw : w = v
    · subst hw
      rw [hf] at h
      exact Option.noConfusion h
    · rw [if_neg hw]
      exact h

theorem insert_insert_self {V : Type} [DecidableEq V] (s : IdStoreByValue V) (v : V) :
    ((s.insert v).2).insert v = ((s.insert v).1, (s.insert v).2) := by
  rw [IdStoreByValue.insert.eq_def]
  rw [findValue_insert_self s v]

/-! ## Behaviour of the constant-union element loop -/

theorem insertElementLiterals_functionNames :
    ∀ (vs : List TConstUnion) (st : SlurperState) (args : List ValueId)
      (st2 : SlurperState),
      insertElementLiterals vs st = Except.ok (args, st2) →
      st2.functionNames = st.functionNames
  | [], st, args, st2 => by
    intro h
    rw [insertElementLiterals] at h
    cases h
    rfl
  | u :: us, st, args, st2 => by
    intro h
    rw [insertElementLiterals] at h
    cases hu : constUnionToLiteralRValue u with
    | error e => rw [hu] at h; exact Except.noConfusion h
    | ok lit =>
      rw [hu] at h
      simp only [] at h
      cases hrest : insertElementLiterals us
          {st with rvalues := (st.rvalues.insert (RValue.literal lit)).2} with
      | error e => rw [hrest] at h; exact Except.noConfusion h
      | ok p =>
        rw [hrest] at h
        simp only [Except.ok.injEq] at h
        have h2 := insertElementLiterals_functionNames us _ p.1 p.2 (by rw [hrest])
        cases h
        exact h2

theorem insertElementLiterals_preserve :
    ∀ (vs : List TConstUnion) (st : SlurperState) (args : List ValueId)
      (st2 : SlurperState) (rv : RValue) (j : Nat),
      insertElementLiterals vs st = Except.ok (args, st2) →
      findValue st.rvalues.entries rv = some j →
      findValue st2.rvalues.entries rv = some j
  | [], st, args, st2, rv, j => by
    intro h hv
    rw [insertElementLiterals] at h
    cases h
    exact hv
  | u :: us, st, args, st2, rv, j => by
    intro h hv
    rw [insertElementLiterals] at h
    cases hu : constUnionToLiteralRValue u with
    | error e => rw [hu] at h; exact Except.noConfusion h
    | ok lit =>
      rw [hu] at h
      simp only [] at h
      cases hrest : insertElementLiterals us
          {st with rvalues := (st.rvalues.insert (RValue.literal lit)).2} with
      | error e => rw [hrest] at h; exact Except.noConfusion h
      | ok p =>
        rw [hrest] at h
        simp only [Except.ok.injEq] at h
        cases h
        exact insertElementLiterals_preserve us _ p.1 p.2 rv j (by rw [hrest])
          (findValue_insert_preserve st.rvalues _ rv j hv)

theorem insertElementLiterals_spec :
    ∀ (vs : List TConstUnion) (st : SlurperState) (lits : List LiteralRValue),
      vs.mapM constUnionToLiteralRValue = Except.ok lits →
      ∃ args st2, insertElementLiterals vs st = Except.ok (args, st2) ∧
        args.length = vs.length ∧ lits.length = vs.length ∧
        ∀ k (hk : k < args.length) (hk2 : k < lits.length),
          ∃ aid, args.get ⟨k, hk⟩ = ValueId.rvalue aid ∧
            findValue st2.rvalues.entries (RValue.literal (lits.get ⟨k, hk2⟩)) = some aid
  | [], st, lits => by
    intro h
    simp only [List.mapM_nil, pure, Except.pure, Except.ok.injEq] at h
    subst h
    refine ⟨[], st, by rw [insertElementLiterals], rfl, rfl, ?_⟩
    intro k hk hk2
    exact absurd hk (by simp)
  | u :: us, st, lits => by
    intro h
    rw [List.mapM_cons] at h
    cases hu : constUnionToLiteralRValue u with
    | error e =>
      rw [hu] at h
      exact Except.noConfusion h
    | ok lit =>
      rw [hu] at h
      cases hrest : us.mapM constUnionToLiteralRValue with
      | error e =>
        rw [hrest] at h
        exact Except.noConfusion h
      | ok lrest =>
        rw [hrest] at h
        simp only [bind, Except.bind, pure, Except.pure, Except.ok.injEq] at h
        subst h
        obtain ⟨args1, st2, hrun, hlen, hlen2, hfacts⟩ :=
          insertElementLiterals_spec us
            {st with rvalues := (st.rvalues.insert (RValue.literal lit)).2} lrest hrest
        refine ⟨ValueId.rvalue (st.rvalues.insert (RValue.literal lit)).1 :: args1, st2,
          ?_, by simp [hlen], by simp [hlen2], ?_⟩
        · rw [insertElementLiterals, hu]
          simp only []
          rw [hrun]
        · intro k hk hk2
          cases k with
          | zero =>
            refine ⟨(st.rvalues.insert (RValue.literal lit)).1, rfl, ?_⟩
            exact insertElementLiterals_preserve us _ args1 st2 _ _ hrun
              (findValue_insert_self st.rvalues (RValue.literal lit))
          | succ k =>
            have hk1 : k < args1.length := by simpa using hk
            have hk3 : k < lrest.length := by simpa using hk2
            obtain ⟨aid, ha1, ha2⟩ := hfacts k hk1 hk3
            exact ⟨aid, ha1, ha2⟩

theorem vectorConstructorName_ok (n : Nat) (h2 : 2 ≤ n) (h4 : n ≤ 4) :
    ∃ fnName, vectorConstructorName n = Except.ok fnName := by
  interval_cases n <;> exact ⟨_, rfl⟩

/-- Claim C7: a single-valued constant interns directly as a
LiteralRValue; a multi-valued constant is fatal unless it is a 2-4 element
vector, and then lowers to an EvaluableRValue whose operator is the
interned vec2/vec3/vec4 function name matching the element count and
whose arguments are the individually interned element literals in element
order, never a single aggregate literal value. -/
theorem slurpValueFromConstantUnion_spec :
    (∀ (ty : TType) (u : TConstUnion) (lit : LiteralRValue) (st : SlurperState),
      constUnionToLiteralRValue u = Except.ok lit →
      slurpValueFromConstantUnion ty [u] st =
        Except.ok (ValueId.rvalue (st.rvalues.insert (RValue.literal lit)).1,
          {st with rvalues := (st.rvalues.insert (RValue.literal lit)).2})) ∧
    (∀ (ty : TType) (values : List TConstUnion) (st : SlurperState),
      2 ≤ values.length → ty.isVector = false →
      ∃ e, slurpValueFromConstantUnion ty values st = Except.error e) ∧
    (∀ (ty : TType) (values : List TConstUnion) (st : SlurperState),
      5 ≤ values.length →
      ∃ e, slurpValueFromConstantUnion ty values st = Except.error e) ∧
    (∀ (ty : TType) (values : List TConstUnion) (st : SlurperState)
      (lits : List LiteralRValue),
      ty.isVector = true → 2 ≤ values.length → values.length ≤ 4 →
      values.mapM constUnionToLiteralRValue = Except.ok lits →
      ∃ fnName fnId args st2 rid,
        vectorConstructorName values.length = Except.ok fnName ∧
        slurpValueFromConstantUnion ty values st =
          Except.ok (ValueId.rvalue rid, st2) ∧
        findValue st2.functionNames.entries fnName = some fnId ∧
        args.length = values.length ∧
        (∀ k (hk : k < args.length) (hk2 : k < lits.length),
          ∃ aid, args.get ⟨k, hk⟩ = ValueId.rvalue aid ∧
            findValue st2.rvalues.entries (RValue.literal (lits.get ⟨k, hk2⟩)) =
              some aid) ∧
        findValue st2.rvalues.entries (RValue.evaluable (Sum.inr fnId) args) =
          some rid) := by
  refine ⟨?_, ?_, ?_, ?_⟩
  · intro ty u lit st h
    rw [slurpValueFromConstantUnion, h]
  · intro ty values st h2 hv
    rcases values with _ | ⟨a, _ | ⟨b, rest⟩⟩
    · exact absurd h2 (by simp)
    · exact absurd h2 (by simp)
    · simp only [slurpValueFromConstantUnion]
      rw [if_neg (by simp [hv])]
      exact ⟨_, rfl⟩
  · intro ty values st h5
    rcases values with _ | ⟨a, _ | ⟨b, rest⟩⟩
    · exact absurd h5 (by simp)
    · exact absurd h5 (by simp)
    · simp only [slurpValueFromConstantUnion]
      by_cases hv : ty.isVector = true
      · rw [if_pos hv]
        have hname : vectorConstructorName (a :: b :: rest).length =
            Except.error "Unsupported ConstArray size" := by
          rw [vectorConstructorName.eq_def]
          have hm : ∃ m, (a :: b :: rest).length = m + 5 :=
            ⟨(a :: b :: rest).length - 5, by simp at h5 ⊢; omega⟩
          obtain ⟨m, hm⟩ := hm
          rw [hm]
          rfl
        rw [hname]
        exact ⟨_, rfl⟩
      · rw [if_neg hv]
        exact ⟨_, rfl⟩
  · intro ty values st lits hv h2 h4 hmap
    rcases values with _ | ⟨a, _ | ⟨b, rest⟩⟩
    · exact absurd h2 (by simp)
    · exact absurd h2 (by simp)
    · obtain ⟨fnName, hname⟩ := vectorConstructorName_ok (a :: b :: rest).length h2 h4
      obtain ⟨args, st2, hrun, hlen, hlen2, hfacts⟩ :=
        insertElementLiterals_spec (a :: b :: rest)
          {st with functionNames := (st.functionNames.insert fnName).2} lits hmap
      refine ⟨fnName, (st.functionNames.insert fnName).1, args,
        {st2 with rvalues :=
          (st2.rvalues.insert (RValue.evaluable
            (Sum.inr (st.functionNames.insert fnName).1) args)).2},
        (st2.rvalues.insert (RValue.evaluable
          (Sum.inr (st.functionNames.insert fnName).1) args)).1,
        hname, ?_, ?_, by rw [hlen], ?_, ?_⟩
      · simp only [slurpValueFromConstantUnion]
        rw [if_pos hv, hname]
        simp only []
        rw [hrun]
      · have hfn : st2.functionNames = (st.functionNames.insert fnName).2 :=
          insertElementLiterals_functionNames _ _ args st2 hrun
        simp only [hfn]
        exact findValue_insert_self st.functionNames fnName
      · intro k hk hk2
        obtain ⟨aid, ha1, ha2⟩ := hfacts k hk hk2
        refine ⟨aid, ha1, ?_⟩
        simp only []
        exact findValue_insert_preserve st2.rvalues _ _ aid ha2
      · simp only []
        exact findValue_insert_self st2.rvalues _

/-- A 3-element float vector type fixture. -/
def vec3TType : TType :=
  ⟨TBasicType.ebtFloat, false, 3, 0, 0, [], plainQualifier, plainSampler, false, ""⟩

/-- Witness for C7: the three-element constant lowers to a vec3 call over
the three interned element literals. -/
theorem slurpValueFromConstantUnion_spec_witness :
    ∃ fnName fnId args st2 rid,
      vectorConstructorName ([TConstUnion.dConst 1, TConstUnion.dConst 2,
        TConstUnion.dConst 3] : List TConstUnion).length = Except.ok fnName ∧
      slurpValueFromConstantUnion vec3TType
        [TConstUnion.dConst 1, TConstUnion.dConst 2, TConstUnion.dConst 3]
        (initialState 310) = Except.ok (ValueId.rvalue rid, st2) ∧
      findValue st2.functionNames.entries fnName = some fnId ∧
      args.length = ([TConstUnion.dConst 1, TConstUnion.dConst 2,
        TConstUnion.dConst 3] : List TConstUnion).length ∧
      (∀ k (hk : k < args.length)
        (hk2 : k < ([⟨TConstUnion.dConst 1⟩, ⟨TConstUnion.dConst 2⟩,
          ⟨TConstUnion.dConst 3⟩] : List LiteralRValue).length),
        ∃ aid, args.get ⟨k, hk⟩ = ValueId.rvalue aid ∧
          findValue st2.rvalues.entries (RValue.literal
            (([⟨TConstUnion.dConst 1⟩, ⟨TConstUnion.dConst 2⟩,
              ⟨TConstUnion.dConst 3⟩] : List LiteralRValue).get ⟨k, hk2⟩)) =
            some aid) ∧
      findValue st2.rvalues.entries (RValue.evaluable (Sum.inr fnId) args) =
        some rid :=
  slurpValueFromConstantUnion_spec.2.2.2 vec3TType
    [TConstUnion.dConst 1, TConstUnion.dConst 2, TConstUnion.dConst 3]
    (initialState 310)
    [⟨TConstUnion.dConst 1⟩, ⟨TConstUnion.dConst 2⟩, ⟨TConstUnion.dConst 3⟩]
    (by rfl) (by decide) (by decide) (by rfl)

/-- The zero-argument swizzle marker RValue. -/
def swizzleMarker : RValue :=
  RValue.evaluable (Sum.inl RValueOperator.VectorSwizzle) []

theorem slurpValue_swizzle_run (ty : TType) (base : AstNode) (sty : TType)
    (nm : String) (sel : List AstNode) (st : SlurperState) (ls : LocalSymbols) :
    slurpValue (AstNode.binary TOperator.EOpVectorSwizzle ty base
        (AstNode.aggregate TOperator.EOpSequence sty nm sel)) st ls =
      Except.ok (ValueId.rvalue (st.rvalues.insert swizzleMarker).1,
        {st with rvalues := (st.rvalues.insert swizzleMarker).2}, ls) := rfl

/-- Claim C10: lowering a vector-swizzle binary node whose selector child
is a sequence aggregate inserts the zero-argument VectorSwizzle marker
only, independent of the base expression and of the selected components,
so a second swizzle over any other vector and components interns to the
identical RValueId with no further state change. -/
theorem vectorSwizzle_interns_single_marker (ty1 ty2 : TType)
    (base1 base2 : AstNode) (sty1 sty2 : TType) (nm1 nm2 : String)
    (sel1 sel2 : List AstNode) (st : SlurperState) (ls : LocalSymbols) :
    ∃ i st1,
      slurpValue (AstNode.binary TOperator.EOpVectorSwizzle ty1 base1
          (AstNode.aggregate TOperator.EOpSequence sty1 nm1 sel1)) st ls =
        Except.ok (ValueId.rvalue i, st1, ls) ∧
      i = (st.rvalues.insert swizzleMarker).1 ∧
      st1 = {st with rvalues := (st.rvalues.insert swizzleMarker).2} ∧
      slurpValue (AstNode.binary TOperator.EOpVectorSwizzle ty2 base2
          (AstNode.aggregate TOperator.EOpSequence sty2 nm2 sel2)) st1 ls =
        Except.ok (ValueId.rvalue i, st1, ls) := by
  refine ⟨(st.rvalues.insert swizzleMarker).1,
    {st with rvalues := (st.rvalues.insert swizzleMarker).2}, rfl, rfl, rfl, ?_⟩
  rw [slurpValue_swizzle_run]
  dsimp only
  rw [insert_insert_self st.rvalues swizzleMarker]

/-! ## Statement lowering (FromGlsl.cpp lines 1101-1251) -/

/-- getAsSymbolNode() as a test. -/
def AstNode.isSymbolNode : AstNode → Bool
  | .symbol _ _ _ _ => true
  | _ => false

/-- getAsConstantUnion() as a test. -/
def AstNode.isConstantUnionNode : AstNode → Bool
  | .constantUnion _ _ => true
  | _ => false

/-- getSequence() of an aggregate node. -/
def AstNode.aggChildren : AstNode → List AstNode
  | .aggregate _ _ _ cs => cs
  | _ => []

theorem sizeOf_pos_astNode (n : AstNode) : 0 < sizeOf n := by
  cases n <;> simp_arith

/-- The loop-terminal handling of nodeToStatements: a missing terminal, or
a bare symbol or bare literal terminal, contributes no terminal; anything
else lowers as an expression and must be an RValue. -/
def slurpLoopTerminal : Option AstNode → SlurperState → LocalSymbols →
    Except String (Option Nat × SlurperState × LocalSymbols)
  | none, st, ls => Except.ok (none, st, ls)
  | some t, st, ls =>
    if !t.isSymbolNode && !t.isConstantUnionNode then
      match slurpValue t st ls with
      | Except.error e => Except.error e
      | Except.ok (ValueId.rvalue rid, st1, ls1) => Except.ok (some rid, st1, ls1)
      | Except.ok _ => Except.error "Encountered non-RValue in Loop terminal"
    else
      Except.ok (none, st, ls)

mutual

/-- Slurper::nodeToStatements: turn a non-root node into statements
appended to the output, dispatching loop, branch, switch, selection,
sequence flattening, then the expression fallback in which a bare symbol
or literal is elided and anything else must lower to an RValue. -/
def nodeToStatements (node : AstNode) (st : SlurperState) (ls : LocalSymbols)
    (output : List Statement) :
    Except String (List Statement × SlurperState × LocalSymbols) :=
  match node with
  | .loop test terminal testFirst body =>
    match slurpValue test st ls with
    | Except.error e => Except.error e
    | Except.ok (conditionId, st1, ls1) =>
      match slurpLoopTerminal terminal st1 ls1 with
      | Except.error e => Except.error e
      | Except.ok (terminalId, st2, ls2) =>
        match slurpStatementBlock body st2 ls2 with
        | Except.error e => Except.error e
        | Except.ok (bodyId, st3, ls3) =>
          Except.ok (output ++ [Statement.loopStmt conditionId terminalId testFirst bodyId],
            st3, ls3)
  | .branch flowOp expression =>
    match expression with
    | none =>
      match glslangOperatorToBranchOperator flowOp with
      | Except.error e => Except.error e
      | Except.ok op => Except.ok (output ++ [Statement.branchStmt op none], st, ls)
    | some operand =>
      match glslangOperatorToBranchOperator flowOp with
      | Except.error e => Except.error e
      | Except.ok op =>
        match slurpValue operand st ls with
        | Except.error e => Except.error e
        | Except.ok (operandId, st1, ls1) =>
          Except.ok (output ++ [Statement.branchStmt op (some operandId)], st1, ls1)
  | .switchNode cond body =>
    if cond.isTyped then
      match slurpValue cond st ls with
      | Except.error e => Except.error e
      | Except.ok (conditionId, st1, ls1) =>
        match slurpStatementBlock body st1 ls1 with
        | Except.error e => Except.error e
        | Except.ok (bodyId, st2, ls2) =>
          Except.ok (output ++ [Statement.switchStmt conditionId bodyId], st2, ls2)
    else
      Except.error "Switch node condition was not typed"
  | .selection _ cond trueBlock falseBlock =>
    match falseBlock with
    | some falseNode =>
      match slurpValue cond st ls with
      | Except.error e => Except.error e
      | Except.ok (conditionId, st1, ls1) =>
        match slurpStatementBlock trueBlock st1 ls1 with
        | Except.error e => Except.error e
        | Except.ok (trueId, st2, ls2) =>
          match slurpStatementBlock falseNode st2 ls2 with
          | Except.error e => Except.error e
          | Except.ok (falseId, st3, ls3) =>
            Except.ok (output ++ [Statement.ifStmt conditionId trueId (some falseId)],
              st3, ls3)
    | none =>
      match slurpValue cond st ls with
      | Except.error e => Except.error e
      | Except.ok (conditionId, st1, ls1) =>
        match slurpStatementBlock trueBlock st1 ls1 with
        | Except.error e => Except.error e
        | Except.ok (trueId, st2, ls2) =>
          Except.ok (output ++ [Statement.ifStmt conditionId trueId none], st2, ls2)
  | .aggregate op ty aggName children =>
    match op with
    | .EOpSequence => nodesToStatements children st ls output
    | _ =>
      match slurpValue (.aggregate op ty aggName children) st ls with
      | Except.error e => Except.error e
      | Except.ok (ValueId.rvalue rid, st1, ls1) =>
        Except.ok (output ++ [Statement.rvalueStmt rid], st1, ls1)
      | Except.ok _ => Except.error "Encountered non-RValue as statement"
  | .constantUnion _ _ => Except.ok (output, st, ls)
  | .symbol _ _ _ _ => Except.ok (output, st, ls)
  | .unary op ty operand =>
    match slurpValue (.unary op ty operand) st ls with
    | Except.error e => Except.error e
    | Except.ok (ValueId.rvalue rid, st1, ls1) =>
      Except.ok (output ++ [Statement.rvalueStmt rid], st1, ls1)
    | Except.ok _ => Except.error "Encountered non-RValue as statement"
  | .binary op ty lhs rhs =>
    match slurpValue (.binary op ty lhs rhs) st ls with
    | Except.error e => Except.error e
    | Except.ok (ValueId.rvalue rid, st1, ls1) =>
      Except.ok (output ++ [Statement.rvalueStmt rid], st1, ls1)
    | Except.ok _ => Except.error "Encountered non-RValue as statement"
termination_by sizeOf node + 1
decreasing_by
  all_goals simp_wf
  all_goals try (have ht := sizeOf_pos_astNode test)
  all_goals try (have hc := sizeOf_pos_astNode cond)
  all_goals omega

/-- The flattening loop over a bare sequence at statement position. -/
def nodesToStatements (nodes : List AstNode) (st : SlurperState) (ls : LocalSymbols)
    (output : List Statement) :
    Except String (List Statement × SlurperState × LocalSymbols) :=
  match nodes with
  | [] => Except.ok (output, st, ls)
  | n :: ns =>
    match nodeToStatements n st ls output with
    | Except.error e => Except.error e
    | Except.ok (output1, st1, ls1) => nodesToStatements ns st1 ls1 output1
termination_by sizeOf nodes + 1

/-- Slurper::slurpStatementBlock: read a sequence child by child, or wrap
a single non-sequence node, then value-intern the statement list. -/
def slurpStatementBlock (node : AstNode) (st : SlurperState) (ls : LocalSymbols) :
    Except String (Nat × SlurperState × LocalSymbols) :=
  match node with
  | .aggregate .EOpSequence _ _ children =>
    match nodesToStatements children st ls [] with
    | Except.error e => Except.error e
    | Except.ok (stmts, st1, ls1) =>
      let r := st1.statementBlocks.insert stmts
      Except.ok (r.1, {st1 with statementBlocks := r.2}, ls1)
  | other =>
    match nodeToStatements other st ls [] with
    | Except.error e => Except.error e
    | Except.ok (stmts, st1, ls1) =>
      let r := st1.statementBlocks.insert stmts
      Except.ok (r.1, {st1 with statementBlocks := r.2}, ls1)
termination_by sizeOf node + 2

end

/-! ## Function and program lowering (FromGlsl.cpp lines 864-936, 1117-1158) -/

/-- std::set insert: membership-preserving insert. -/
def setInsert (l : List Nat) (k : Nat) : List Nat :=
  if k ∈ l then l else l ++ [k]

/-- unordered_map::operator[] assignment: one entry per key. -/
def updateFunctionDefinitions (l : List (Nat × FunctionDefinition)) (k : Nat)
    (v : FunctionDefinition) : List (Nat × FunctionDefinition) :=
  (k, v) :: l.filter (fun p => p.1 ≠ k)

/-- unordered_map lookup. -/
def lookupFunctionDefinition (l : List (Nat × FunctionDefinition)) (k : Nat) :
    Option FunctionDefinition :=
  (l.find? (fun p => p.1 = k)).map Prod.snd

/-- The parameter loop of slurpFunctionDefinition: each parameter must be
a symbol; its name (getName) is interned, its type lowered, and the symbol
key-interned into the fresh local scope. -/
def slurpParameters : List AstNode → SlurperState → LocalSymbols → List Nat →
    Except String (List Nat × SlurperState × LocalSymbols)
  | [], st, ls, acc => Except.ok (acc, st, ls)
  | p :: ps, st, ls, acc =>
    match p with
    | .symbol declId _ symName pty =>
      let r := st.strings.insert symName
      let st1 := {st with strings := r.2}
      match slurpType pty st1 with
      | Except.error e => Except.error e
      | Except.ok (typeId, st2) =>
        let lr := ls.insert declId ⟨r.1, some typeId⟩
        slurpParameters ps st2 lr.2 (acc ++ [lr.1])
    | _ => Except.error "Function parameter must be symbol"

/-- Slurper::slurpFunctionDefinition: a 1-child function node records a
prototype; a 2-child node lowers the return type, parameters and body and
stores the finished definition, appending the id to the in-order list. -/
def slurpFunctionDefinition (node : AstNode) (st : SlurperState) :
    Except String SlurperState :=
  match node with
  | .aggregate .EOpFunction ty fnName children =>
    match children with
    | [parametersNode] =>
      match parametersNode with
      | .aggregate _ _ _ _ =>
        let rf := st.functionNames.insert fnName
        Except.ok {st with
          functionNames := rf.2
          functionPrototypes := setInsert st.functionPrototypes rf.1}
      | _ => Except.error "Function parameters must be an aggregate node"
    | [parametersNode, bodyNode] =>
      match parametersNode with
      | .aggregate _ _ _ paramChildren =>
        let rf := st.functionNames.insert fnName
        let st0 := {st with functionNames := rf.2}
        match slurpType ty st0 with
        | Except.error e => Except.error e
        | Except.ok (returnTypeId, st1) =>
          match slurpParameters paramChildren st1 (IdStoreByKey.empty Int Symbol) [] with
          | Except.error e => Except.error e
          | Except.ok (parameters, st2, ls) =>
            match slurpStatementBlock bodyNode st2 ls with
            | Except.error e => Except.error e
            | Except.ok (bodyId, st3, ls3) =>
              Except.ok {st3 with
                functionDefinitions := updateFunctionDefinitions st3.functionDefinitions
                  rf.1 ⟨rf.1, returnTypeId, parameters, bodyId, ls3.getFinal⟩
                functionDefinitionsInOrder := st3.functionDefinitionsInOrder ++ [rf.1]}
      | _ => Except.error "Function parameters must be an aggregate node"
    | _ => Except.error "Sequence must be of length 1 or 2"
  | _ => Except.error "Node must be a function"

/-- The root bucketing loop: every root child must be a LinkerObjects,
Sequence or Function aggregate, collected in order into three buckets. -/
def classifyRootChildren : List AstNode →
    Except String (List AstNode × List AstNode × List AstNode)
  | [] => Except.ok ([], [], [])
  | child :: rest =>
    match child with
    | .aggregate op _ _ _ =>
      match op with
      | .EOpLinkerObjects =>
        match classifyRootChildren rest with
        | Except.error e => Except.error e
        | Except.ok (l, sq, f) => Except.ok (child :: l, sq, f)
      | .EOpSequence =>
        match classifyRootChildren rest with
        | Except.error e => Except.error e
        | Except.ok (l, sq, f) => Except.ok (l, child :: sq, f)
      | .EOpFunction =>
        match classifyRootChildren rest with
        | Except.error e => Except.error e
        | Except.ok (l, sq, f) => Except.ok (l, sq, child :: f)
      | _ => Except.error "Unhandled child of root node"
    | _ => Except.error "Unhandled child of root node"

/-- The linker-object loop body: every child must be a symbol, registered
as a global. -/
def slurpLinkerObjectChildren : List AstNode → SlurperState →
    Except String SlurperState
  | [], st => Except.ok st
  | c :: cs, st =>
    match c with
    | .symbol declId accessName _ ty =>
      match slurpGlobalSymbol declId accessName ty st with
      | Except.error e => Except.error e
      | Except.ok (_, st1) => slurpLinkerObjectChildren cs st1
    | _ => Except.error "Unhandled child of LinkerObjects node"

/-- Process every linker-object node in order. -/
def slurpLinkerObjects : List AstNode → SlurperState → Except String SlurperState
  | [], st => Except.ok st
  | node :: rest, st =>
    match slurpLinkerObjectChildren node.aggChildren st with
    | Except.error e => Except.error e
    | Except.ok st1 => slurpLinkerObjects rest st1

/-- One global-initializer child: it must be an assignment whose left side
is a plain symbol; the global is registered, the right side lowered in the
shared local scope, and it is fatal if that scope is non-empty afterwards;
on success the (global id, value id) pair is appended in order. -/
def processInitChild (child : AstNode) (st : SlurperState) (ls : LocalSymbols) :
    Except String (SlurperState × LocalSymbols) :=
  match child with
  | .binary op _ lhs rhs =>
    if op = .EOpAssign then
      match lhs with
      | .symbol declId accessName _ lty =>
        match slurpGlobalSymbol declId accessName lty st with
        | Except.error e => Except.error e
        | Except.ok (globalSymbolId, st1) =>
          match slurpValue rhs st1 ls with
          | Except.error e => Except.error e
          | Except.ok (initialValue, st2, ls2) =>
            if ls2.isEmpty then
              Except.ok ({st2 with globalSymbolDefinitionsInOrder :=
                st2.globalSymbolDefinitionsInOrder ++ [(globalSymbolId, initialValue)]},
                ls2)
            else
              Except.error "Global symbol definition must not touch local symbols"
      | _ => Except.error "Left-hand side of global variable definition must be symbol"
    else
      Except.error "Unhandled child of LinkerObjects node"
  | _ => Except.error "Unhandled child of LinkerObjects node"

/-- All children of one initializer sequence node, in order. -/
def processInitChildren : List AstNode → SlurperState → LocalSymbols →
    Except String (SlurperState × LocalSymbols)
  | [], st, ls => Except.ok (st, ls)
  | c :: cs, st, ls =>
    match processInitChild c st ls with
    | Except.error e => Except.error e
    | Except.ok (st1, ls1) => processInitChildren cs st1 ls1

/-- All initializer sequence nodes, sharing the one (empty) local scope. -/
def processInitSequences : List AstNode → SlurperState → LocalSymbols →
    Except String (SlurperState × LocalSymbols)
  | [], st, ls => Except.ok (st, ls)
  | node :: rest, st, ls =>
    match processInitChildren node.aggChildren st ls with
    | Except.error e => Except.error e
    | Except.ok (st1, ls1) => processInitSequences rest st1 ls1

/-- Process every function node in order. -/
def slurpFunctionNodes : List AstNode → SlurperState → Except String SlurperState
  | [], st => Except.ok st
  | node :: rest, st =>
    match slurpFunctionDefinition node st with
    | Except.error e => Except.error e
    | Except.ok st1 => slurpFunctionNodes rest st1

/-- Slurper::slurpFromRoot: the root must be a sequence aggregate; its
children are bucketed and the buckets processed in the order globals,
global initializers, functions. -/
def slurpFromRoot (node : AstNode) (st : SlurperState) : Except String SlurperState :=
  match node with
  | .aggregate op _ _ children =>
    if op = .EOpSequence then
      match classifyRootChildren children with
      | Except.error e => Except.error e
      | Except.ok (linkerObjectNodes, sequenceNodes, functionNodes) =>
        match slurpLinkerObjects linkerObjectNodes st with
        | Except.error e => Except.error e
        | Except.ok st1 =>
          match processInitSequences sequenceNodes st1 (IdStoreByKey.empty Int Symbol) with
          | Except.error e => Except.error e
          | Except.ok (st2, _) => slurpFunctionNodes functionNodes st2
    else
      Except.error "Node must be a sequence"
  | _ => Except.error "Node must not be null"

/-! ## Pack assembly (FromGlsl.cpp lines 834-848, 1462-1465) -/

/-- Modelled from the spec: the immutable output Pack (PackFromGlsl in
astrict/CommonTypes.h), the frozen form of every table plus the two
order-preserving lists. -/
structure PackFromGlsl where
  version : Int
  strings : List (Nat × String)
  types : List (Nat × Ty)
  globalSymbols : List (Nat × Symbol)
  rvalues : List (Nat × RValue)
  functionNames : List (Nat × String)
  statementBlocks : List (Nat × List Statement)
  functionDefinitions : List (Nat × FunctionDefinition)
  functionPrototypes : List Nat
  globalSymbolDefinitionsInOrder : List (Nat × ValueId)
  functionDefinitionsInOrder : List Nat
  deriving DecidableEq

/-- Slurper::intoPack: freeze every table. -/
def intoPack (st : SlurperState) : PackFromGlsl :=
  ⟨st.version, st.strings.getFinal, st.types.getFinal, st.globalSymbols.getFinal,
   st.rvalues.getFinal, st.functionNames.getFinal, st.statementBlocks.getFinal,
   st.functionDefinitions, st.functionPrototypes,
   st.globalSymbolDefinitionsInOrder, st.functionDefinitionsInOrder⟩

/-- fromGlsl: run one lowering pass; a fatal condition aborts with no
Pack. -/
def fromGlsl (version : Int) (root : AstNode) : Except String PackFromGlsl :=
  match slurpFromRoot root (initialState version) with
  | Except.error e => Except.error e
  | Except.ok st => Except.ok (intoPack st)

/-! ## Frame lemmas: expression and statement lowering never touches the
function tables or the order-preserving lists. -/

/-- The function tables and order lists of two states agree. -/
def FunctionTablesUntouched (st st2 : SlurperState) : Prop :=
  st2.functionDefinitions = st.functionDefinitions ∧
  st2.functionPrototypes = st.functionPrototypes ∧
  st2.functionDefinitionsInOrder = st.functionDefinitionsInOrder ∧
  st2.globalSymbolDefinitionsInOrder = st.globalSymbolDefinitionsInOrder

theorem fnt_refl (st : SlurperState) : FunctionTablesUntouched st st :=
  ⟨rfl, rfl, rfl, rfl⟩

theorem fnt_trans {a b c : SlurperState} (h1 : FunctionTablesUntouched a b)
    (h2 : FunctionTablesUntouched b c) : FunctionTablesUntouched a c :=
  ⟨h2.1.trans h1.1, h2.2.1.trans h1.2.1, h2.2.2.1.trans h1.2.2.1,
   h2.2.2.2.trans h1.2.2.2⟩

theorem slurpType_frame (t : TType) (st : SlurperState) (i : Nat)
    (st2 : SlurperState) (h : slurpType t st = Except.ok (i, st2)) :
    FunctionTablesUntouched st st2 := by
  rw [slurpType] at h
  split at h
  · exact Except.noConfusion h
  · cases h
    exact ⟨rfl, rfl, rfl, rfl⟩

theorem slurpGlobalSymbol_frame (declId : Int) (accessName : String) (ty : TType)
    (st : SlurperState) (i : Nat) (st2 : SlurperState)
    (h : slurpGlobalSymbol declId accessName ty st = Except.ok (i, st2)) :
    FunctionTablesUntouched st st2 := by
  rw [slurpGlobalSymbol] at h
  split at h
  · exact Except.noConfusion h
  · rename_i typeId st1 heq
    cases h
    exact fnt_trans (slurpType_frame ty st typeId st1 heq) ⟨rfl, rfl, rfl, rfl⟩

theorem slurpOperator_frame (op : TOperator) (returnType : TType)
    (arg1Type : Option TType) (st : SlurperState) (r : RValueOperator ⊕ Nat)
    (st2 : SlurperState) (h : slurpOperator op returnType arg1Type st = Except.ok (r, st2)) :
    FunctionTablesUntouched st st2 := by
  rw [slurpOperator] at h
  split at h
  · exact Except.noConfusion h
  · cases h
    exact fnt_refl st
  · cases h
    exact ⟨rfl, rfl, rfl, rfl⟩

theorem insertElementLiterals_frame :
    ∀ (vs : List TConstUnion) (st : SlurperState) (args : List ValueId)
      (st2 : SlurperState),
      insertElementLiterals vs st = Except.ok (args, st2) →
      FunctionTablesUntouched st st2
  | [], st, args, st2 => by
    intro h
    rw [insertElementLiterals] at h
    cases h
    exact fnt_refl st
  | u :: us, st, args, st2 => by
    intro h
    rw [insertElementLiterals] at h
    cases hu : constUnionToLiteralRValue u with
    | error e => rw [hu] at h; exact Except.noConfusion h
    | ok lit =>
      rw [hu] at h
      simp only [] at h
      cases hrest : insertElementLiterals us
          {st with rvalues := (st.rvalues.insert (RValue.literal lit)).2} with
      | error e => rw [hrest] at h; exact Except.noConfusion h
      | ok p =>
        rw [hrest] at h
        simp only [Except.ok.injEq] at h
        cases h
        exact fnt_trans (⟨rfl, rfl, rfl, rfl⟩ : FunctionTablesUntouched st _)
          (insertElementLiterals_frame us
            {st with rvalues := (st.rvalues.insert (RValue.literal lit)).2}
            p.1 p.2 (by rw [hrest]))

theorem slurpValueFromConstantUnion_frame (ty : TType) (values : List TConstUnion)
    (st : SlurperState) (v : ValueId) (st2 : SlurperState)
    (h : slurpValueFromConstantUnion ty values st = Except.ok (v, st2)) :
    FunctionTablesUntouched st st2 := by
  rw [slurpValueFromConstantUnion.eq_def] at h
  split at h
  · exact Except.noConfusion h
  · split at h
    · exact Except.noConfusion h
    · cases h
      exact ⟨rfl, rfl, rfl, rfl⟩
  · split at h
    · cases hname : vectorConstructorName values.length with
      | error e => rw [hname] at h; exact Except.noConfusion h
      | ok fnName =>
        rw [hname] at h
        dsimp only at h
        cases hrest : insertElementLiterals values
            {st with functionNames := (st.functionNames.insert fnName).2} with
        | error e => rw [hrest] at h; exact Except.noConfusion h
        | ok p =>
          rw [hrest] at h
          cases h
          exact fnt_trans (⟨rfl, rfl, rfl, rfl⟩ : FunctionTablesUntouched st _)
            (fnt_trans (insertElementLiterals_frame values
                {st with functionNames := (st.functionNames.insert fnName).2}
                p.1 p.2 (by rw [hrest]))
              ⟨rfl, rfl, rfl, rfl⟩)
    · exact Except.noConfusion h

theorem slurpValueFromSymbol_frame (declId : Int) (accessName : String) (ty : TType)
    (st : SlurperState) (ls : LocalSymbols) (v : ValueId) (st2 : SlurperState)
    (ls2 : LocalSymbols)
    (h : slurpValueFromSymbol declId accessName ty st ls = Except.ok (v, st2, ls2)) :
    FunctionTablesUntouched st st2 := by
  rw [slurpValueFromSymbol] at h
  split at h
  · cases h
    exact fnt_refl st
  · dsimp only at h
    split at h
    · cases h
      exact ⟨rfl, rfl, rfl, rfl⟩
    · cases hty : slurpType ty {st with strings := (st.strings.insert accessName).2} with
      | error e => rw [hty] at h; exact Except.noConfusion h
      | ok q =>
        rw [hty] at h
        simp only [] at h
        cases h
        exact fnt_trans (⟨rfl, rfl, rfl, rfl⟩ : FunctionTablesUntouched st _)
          (slurpType_frame ty {st with strings := (st.strings.insert accessName).2}
            q.1 q.2 (by rw [hty]))

/-! ## Unfolding lemmas for slurpValue, one per node shape. -/

theorem slurpValue_constantUnion_eq (ty : TType) (values : List TConstUnion)
    (st : SlurperState) (ls : LocalSymbols) :
    slurpValue (AstNode.constantUnion ty values) st ls =
      match slurpValueFromConstantUnion ty values st with
      | Except.error e => Except.error e
      | Except.ok (v, st1) => Except.ok (v, st1, ls) := rfl

theorem slurpValue_symbol_eq (declId : Int) (accessName symName : String)
    (ty : TType) (st : SlurperState) (ls : LocalSymbols) :
    slurpValue (AstNode.symbol declId accessName symName ty) st ls =
      slurpValueFromSymbol declId accessName ty st ls := rfl

theorem slurpValue_unary_eq (op : TOperator) (ty : TType) (operand : AstNode)
    (st : SlurperState) (ls : LocalSymbols) :
    slurpValue (AstNode.unary op ty operand) st ls =
      match slurpValue operand st ls with
      | Except.error e => Except.error e
      | Except.ok (operandId, st1, ls1) =>
        match slurpOperator op ty operand.getType? st1 with
        | Except.error e => Except.error e
        | Except.ok (opv, st2) =>
          let ri := st2.rvalues.insert (RValue.evaluable opv [operandId])
          Except.ok (ValueId.rvalue ri.1, {st2 with rvalues := ri.2}, ls1) := rfl

theorem slurpValue_binary_eq (op : TOperator) (ty : TType) (lhs rhs : AstNode)
    (st : SlurperState) (ls : LocalSymbols) :
    slurpValue (AstNode.binary op ty lhs rhs) st ls =
      match op with
      | .EOpVectorSwizzle =>
        match rhs with
        | .aggregate rop _ _ _ =>
          if rop = .EOpSequence then
            let ri := st.rvalues.insert
              (RValue.evaluable (Sum.inl RValueOperator.VectorSwizzle) [])
            Except.ok (ValueId.rvalue ri.1, {st with rvalues := ri.2}, ls)
          else
            Except.error "Swizzle node must be a sequence"
        | _ => Except.error "Swizzle node must be an aggregate"
      | _ =>
        match slurpValue lhs st ls with
        | Except.error e => Except.error e
        | Except.ok (lhsId, st1, ls1) =>
          match slurpValue rhs st1 ls1 with
          | Except.error e => Except.error e
          | Except.ok (rhsId, st2, ls2) =>
            match slurpOperator op ty lhs.getType? st2 with
            | Except.error e => Except.error e
            | Except.ok (opv, st3) =>
              let ri := st3.rvalues.insert (RValue.evaluable opv [lhsId, rhsId])
              Except.ok (ValueId.rvalue ri.1, {st3 with rvalues := ri.2}, ls2) := rfl

theorem slurpValue_selection_some_eq (ty : TType) (cond trueBlock : AstNode)
    (falseNode : AstNode) (st : SlurperState) (ls : LocalSymbols) :
    slurpValue (AstNode.selection ty cond trueBlock (some falseNode)) st ls =
      match slurpValue cond st ls with
      | Except.error e => Except.error e
      | Except.ok (condId, st1, ls1) =>
        if trueBlock.isTyped && falseNode.isTyped then
          match slurpValue trueBlock st1 ls1 with
          | Except.error e => Except.error e
          | Except.ok (trueId, st2, ls2) =>
            match slurpValue falseNode st2 ls2 with
            | Except.error e => Except.error e
            | Except.ok (falseId, st3, ls3) =>
              let ri := st3.rvalues.insert
                (RValue.evaluable (Sum.inl RValueOperator.Ternary)
                  [condId, trueId, falseId])
              Except.ok (ValueId.rvalue ri.1, {st3 with rvalues := ri.2}, ls3)
        else
          Except.error "A selection node branch was not typed" := rfl

theorem slurpValue_selection_none_eq (ty : TType) (cond trueBlock : AstNode)
    (st : SlurperState) (ls : LocalSymbols) :
    slurpValue (AstNode.selection ty cond trueBlock none) st ls =
      match slurpValue cond st ls with
      | Except.error e => Except.error e
      | Except.ok _ =>
        Except.error "A selection node branch was not typed" := rfl

theorem slurpValue_aggregate_eq (op : TOperator) (ty : TType) (aggName : String)
    (children : List AstNode) (st : SlurperState) (ls : LocalSymbols) :
    slurpValue (AstNode.aggregate op ty aggName children) st ls =
      match op with
      | .EOpFunction => Except.error "Cannot convert to statement"
      | .EOpLinkerObjects => Except.error "Cannot convert to statement"
      | .EOpParameters => Except.error "Cannot convert to statement"
      | .EOpSequence => Except.error "Cannot convert to statement"
      | .EOpFunctionCall =>
        let rf := st.functionNames.insert aggName
        let st0 := {st with functionNames := rf.2}
        match slurpValueArgs children st0 ls with
        | Except.error e => Except.error e
        | Except.ok (args, st1, ls1) =>
          let ri := st1.rvalues.insert (RValue.evaluable (Sum.inr rf.1) args)
          Except.ok (ValueId.rvalue ri.1, {st1 with rvalues := ri.2}, ls1)
      | _ =>
        match slurpValueArgs children st ls with
        | Except.error e => Except.error e
        | Except.ok (args, st1, ls1) =>
          let arg1Type := match children with
            | [] => none
            | c :: _ => c.getType?
          match slurpOperator op ty arg1Type st1 with
          | Except.error e => Except.error e
          | Except.ok (opv, st2) =>
            let ri := st2.rvalues.insert (RValue.evaluable opv args)
            Except.ok (ValueId.rvalue ri.1, {st2 with rvalues := ri.2}, ls1) := rfl

theorem slurpValue_loop_eq (test : AstNode) (terminal : Option AstNode)
    (testFirst : Bool) (body : AstNode) (st : SlurperState) (ls : LocalSymbols) :
    slurpValue (AstNode.loop test terminal testFirst body) st ls =
      Except.error "Cannot convert to statement" := rfl

theorem slurpValue_branch_eq (flowOp : TOperator) (expression : Option AstNode)
    (st : SlurperState) (ls : LocalSymbols) :
    slurpValue (AstNode.branch flowOp expression) st ls =
      Except.error "Cannot convert to statement" := rfl

theorem slurpValue_switchNode_eq (cond body : AstNode) (st : SlurperState)
    (ls : LocalSymbols) :
    slurpValue (AstNode.switchNode cond body) st ls =
      Except.error "Cannot convert to statement" := rfl

theorem slurpValueArgs_nil_eq (st : SlurperState) (ls : LocalSymbols) :
    slurpValueArgs [] st ls = Except.ok ([], st, ls) := rfl

theorem slurpValueArgs_cons_eq (n : AstNode) (ns : List AstNode)
    (st : SlurperState) (ls : LocalSymbols) :
    slurpValueArgs (n :: ns) st ls =
      match slurpValue n st ls with
      | Except.error e => Except.error e
      | Except.ok (v, st1, ls1) =>
        match slurpValueArgs ns st1 ls1 with
        | Except.error e => Except.error e
        | Except.ok (vs, st2, ls2) => Except.ok (v :: vs, st2, ls2) := rfl

mutual

theorem slurpValue_frame :
    ∀ (node : AstNode) (st : SlurperState) (ls : LocalSymbols) (v : ValueId)
      (st2 : SlurperState) (ls2 : LocalSymbols),
      slurpValue node st ls = Except.ok (v, st2, ls2) →
      FunctionTablesUntouched st st2
  | .constantUnion ty values, st, ls, v, st2, ls2 => by
    intro h
    rw [slurpValue_constantUnion_eq] at h
    cases hcu : slurpValueFromConstantUnion ty values st with
    | error e => rw [hcu] at h; exact Except.noConfusion h
    | ok p =>
      rw [hcu] at h
      simp only [] at h
      cases h
      exact slurpValueFromConstantUnion_frame ty values st p.1 p.2 (by rw [hcu])
  | .symbol declId accessName symName ty, st, ls, v, st2, ls2 => by
    intro h
    rw [slurpValue_symbol_eq] at h
    exact slurpValueFromSymbol_frame declId accessName ty st ls v st2 ls2 h
  | .unary op ty operand, st, ls, v, st2, ls2 => by
    intro h
    rw [slurpValue_unary_eq] at h
    cases h1 : slurpValue operand st ls with
    | error e => rw [h1] at h; exact Except.noConfusion h
    | ok p =>
      rw [h1] at h
      simp only [] at h
      cases h2 : slurpOperator op ty operand.getType? p.2.1 with
      | error e => rw [h2] at h; exact Except.noConfusion h
      | ok q =>
        rw [h2] at h
        simp only [] at h
        cases h
        exact fnt_trans (slurpValue_frame operand st ls p.1 p.2.1 p.2.2 (by rw [h1]))
          (fnt_trans (slurpOperator_frame op ty operand.getType? p.2.1 q.1 q.2
            (by rw [h2])) ⟨rfl, rfl, rfl, rfl⟩)
  | .binary op ty lhs rhs, st, ls, v, st2, ls2 => by
    intro h
    rw [slurpValue_binary_eq] at h
    split at h
    · split at h
      · split at h
        · cases h
          exact ⟨rfl, rfl, rfl, rfl⟩
        · exact Except.noConfusion h
      · exact Except.noConfusion h
    · cases h1 : slurpValue lhs st ls with
      | error e => rw [h1] at h; exact Except.noConfusion h
      | ok p =>
        rw [h1] at h
        simp only [] at h
        cases h2 : slurpValue rhs p.2.1 p.2.2 with
        | error e => rw [h2] at h; exact Except.noConfusion h
        | ok q =>
          rw [h2] at h
          simp only [] at h
          cases h3 : slurpOperator op ty lhs.getType? q.2.1 with
          | error e => rw [h3] at h; exact Except.noConfusion h
          | ok r =>
            rw [h3] at h
            simp only [] at h
            cases h
            exact fnt_trans (slurpValue_frame lhs st ls p.1 p.2.1 p.2.2 (by rw [h1]))
              (fnt_trans (slurpValue_frame rhs p.2.1 p.2.2 q.1 q.2.1 q.2.2 (by rw [h2]))
                (fnt_trans (slurpOperator_frame op ty lhs.getType? q.2.1 r.1 r.2
                  (by rw [h3])) ⟨rfl, rfl, rfl, rfl⟩))
  | .selection ty cond tb fb, st, ls, v, st2, ls2 => by
    intro h
    cases fb with
    | none =>
      rw [slurpValue_selection_none_eq] at h
      cases h1 : slurpValue cond st ls with
      | error e => rw [h1] at h; exact Except.noConfusion h
      | ok p =>
        rw [h1] at h
        simp only [] at h
        exact Except.noConfusion h
    | some fn =>
      rw [slurpValue_selection_some_eq] at h
      cases h1 : slurpValue cond st ls with
      | error e => rw [h1] at h; exact Except.noConfusion h
      | ok p =>
        rw [h1] at h
        simp only [] at h
        split at h
        · cases h2 : slurpValue tb p.2.1 p.2.2 with
          | error e => rw [h2] at h; exact Except.noConfusion h
          | ok q =>
            rw [h2] at h
            simp only [] at h
            cases h3 : slurpValue fn q.2.1 q.2.2 with
            | error e => rw [h3] at h; exact Except.noConfusion h
            | ok r =>
              rw [h3] at h
              simp only [] at h
              cases h
              exact fnt_trans (slurpValue_frame cond st ls p.1 p.2.1 p.2.2 (by rw [h1]))
                (fnt_trans (slurpValue_frame tb p.2.1 p.2.2 q.1 q.2.1 q.2.2 (by rw [h2]))
                  (fnt_trans (slurpValue_frame fn q.2.1 q.2.2 r.1 r.2.1 r.2.2 (by rw [h3]))
                    ⟨rfl, rfl, rfl, rfl⟩))
        · exact Except.noConfusion h
  | .aggregate op ty aggName children, st, ls, v, st2, ls2 => by
    intro h
    rw [slurpValue_aggregate_eq] at h
    split at h
    · exact Except.noConfusion h
    · exact Except.noConfusion h
    · exact Except.noConfusion h
    · exact Except.noConfusion h
    · dsimp only at h
      cases h1 : slurpValueArgs children
          {st with functionNames := (st.functionNames.insert aggName).2} ls with
      | error e => rw [h1] at h; exact Except.noConfusion h
      | ok p =>
        rw [h1] at h
        simp only [] at h
        cases h
        exact fnt_trans (⟨rfl, rfl, rfl, rfl⟩ : FunctionTablesUntouched st _)
          (fnt_trans (slurpValueArgs_frame children
            {st with functionNames := (st.functionNames.insert aggName).2} ls
            p.1 p.2.1 p.2.2 (by rw [h1])) ⟨rfl, rfl, rfl, rfl⟩)
    · cases children with
      | nil =>
        cases h1 : slurpValueArgs [] st ls with
        | error e => rw [h1] at h; exact Except.noConfusion h
        | ok p =>
          rw [h1] at h
          simp only [] at h
          cases h2 : slurpOperator op ty none p.2.1 with
          | error e => rw [h2] at h; exact Except.noConfusion h
          | ok q =>
            rw [h2] at h
            simp only [] at h
            cases h
            exact fnt_trans (slurpValueArgs_frame [] st ls p.1 p.2.1 p.2.2 (by rw [h1]))
              (fnt_trans (slurpOperator_frame op ty none p.2.1 q.1 q.2 (by rw [h2]))
                ⟨rfl, rfl, rfl, rfl⟩)
      | cons c cs =>
        cases h1 : slurpValueArgs (c :: cs) st ls with
        | error e => rw [h1] at h; exact Except.noConfusion h
        | ok p =>
          rw [h1] at h
          simp only [] at h
          cases h2 : slurpOperator op ty c.getType? p.2.1 with
          | error e => rw [h2] at h; exact Except.noConfusion h
          | ok q =>
            rw [h2] at h
            simp only [] at h
            cases h
            exact fnt_trans (slurpValueArgs_frame (c :: cs) st ls p.1 p.2.1 p.2.2 (by rw [h1]))
              (fnt_trans (slurpOperator_frame op ty c.getType? p.2.1 q.1 q.2 (by rw [h2]))
                ⟨rfl, rfl, rfl, rfl⟩)
  | .loop test terminal testFirst body, st, ls, v, st2, ls2 => by
    intro h
    rw [slurpValue_loop_eq] at h
    exact Except.noConfusion h
  | .branch flowOp expression, st, ls, v, st2, ls2 => by
    intro h
    rw [slurpValue_branch_eq] at h
    exact Except.noConfusion h
  | .switchNode cond body, st, ls, v, st2, ls2 => by
    intro h
    rw [slurpValue_switchNode_eq] at h
    exact Except.noConfusion h
termination_by node => sizeOf node

theorem slurpValueArgs_frame :
    ∀ (nodes : List AstNode) (st : SlurperState) (ls : LocalSymbols)
      (vs : List ValueId) (st2 : SlurperState) (ls2 : LocalSymbols),
      slurpValueArgs nodes st ls = Except.ok (vs, st2, ls2) →
      FunctionTablesUntouched st st2
  | [], st, ls, vs, st2, ls2 => by
    intro h
    rw [slurpValueArgs_nil_eq] at h
    cases h
    exact fnt_refl st
  | n :: ns, st, ls, vs, st2, ls2 => by
    intro h
    rw [slurpValueArgs_cons_eq] at h
    cases h1 : slurpValue n st ls with
    | error e => rw [h1] at h; exact Except.noConfusion h
    | ok p =>
      rw [h1] at h
      simp only [] at h
      cases h2 : slurpValueArgs ns p.2.1 p.2.2 with
      | error e => rw [h2] at h; exact Except.noConfusion h
      | ok q =>
        rw [h2] at h
        simp only [] at h
        cases h
        exact fnt_trans (slurpValue_frame n st ls p.1 p.2.1 p.2.2 (by rw [h1]))
          (slurpValueArgs_frame ns p.2.1 p.2.2 q.1 q.2.1 q.2.2 (by rw [h2]))
termination_by nodes => sizeOf nodes

end

theorem slurpLoopTerminal_frame (terminal : Option AstNode) (st : SlurperState)
    (ls : LocalSymbols) (tid : Option Nat) (st2 : SlurperState) (ls2 : LocalSymbols)
    (h : slurpLoopTerminal terminal st ls = Except.ok (tid, st2, ls2)) :
    FunctionTablesUntouched st st2 := by
  cases terminal with
  | none =>
    rw [slurpLoopTerminal] at h
    cases h
    exact fnt_refl st
  | some t =>
    rw [slurpLoopTerminal] at h
    split at h
    · cases h1 : slurpValue t st ls with
      | error e => rw [h1] at h; exact Except.noConfusion h
      | ok p =>
        obtain ⟨pv, pst, pls⟩ := p
        rw [h1] at h
        cases pv with
        | rvalue rid =>
          simp only [] at h
          cases h
          exact slurpValue_frame t st ls (ValueId.rvalue rid) st2 ls2 (by rw [h1])
        | globalSym g =>
          simp only [] at h
          exact Except.noConfusion h
        | localSym l =>
          simp only [] at h
          exact Except.noConfusion h
    · cases h
      exact fnt_refl st

mutual

theorem nodeToStatements_frame :
    ∀ (node : AstNode) (st : SlurperState) (ls : LocalSymbols)
      (output stmts : List Statement) (st2 : SlurperState) (ls2 : LocalSymbols),
      nodeToStatements node st ls output = Except.ok (stmts, st2, ls2) →
      FunctionTablesUntouched st st2
  | .loop test terminal testFirst body, st, ls, output, stmts, st2, ls2 => by
    intro h
    rw [nodeToStatements] at h
    cases h1 : slurpValue test st ls with
    | error e => rw [h1] at h; exact Except.noConfusion h
    | ok p =>
      rw [h1] at h
      simp only [] at h
      cases h2 : slurpLoopTerminal terminal p.2.1 p.2.2 with
      | error e => rw [h2] at h; exact Except.noConfusion h
      | ok q =>
        rw [h2] at h
        simp only [] at h
        cases h3 : slurpStatementBlock body q.2.1 q.2.2 with
        | error e => rw [h3] at h; exact Except.noConfusion h
        | ok r =>
          rw [h3] at h
          simp only [] at h
          cases h
          exact fnt_trans (slurpValue_frame test st ls p.1 p.2.1 p.2.2 (by rw [h1]))
            (fnt_trans (slurpLoopTerminal_frame terminal p.2.1 p.2.2 q.1 q.2.1 q.2.2
              (by rw [h2]))
              (slurpStatementBlock_frame body q.2.1 q.2.2 r.1 r.2.1 r.2.2 (by rw [h3])))
  | .branch flowOp expression, st, ls, output, stmts, st2, ls2 => by
    intro h
    cases expression with
    | none =>
      rw [nodeToStatements] at h
      cases hb : glslangOperatorToBranchOperator flowOp with
      | error e => rw [hb] at h; exact Except.noConfusion h
      | ok op =>
        rw [hb] at h
        simp only [] at h
        cases h
        exact fnt_refl st
    | some operand =>
      rw [nodeToStatements] at h
      cases hb : glslangOperatorToBranchOperator flowOp with
      | error e => rw [hb] at h; exact Except.noConfusion h
      | ok op =>
        rw [hb] at h
        simp only [] at h
        cases h1 : slurpValue operand st ls with
        | error e => rw [h1] at h; exact Except.noConfusion h
        | ok p =>
          rw [h1] at h
          simp only [] at h
          cases h
          exact slurpValue_frame operand st ls p.1 p.2.1 p.2.2 (by rw [h1])
  | .switchNode cond body, st, ls, output, stmts, st2, ls2 => by
    intro h
    rw [nodeToStatements] at h
    split at h
    · cases h1 : slurpValue cond st ls with
      | error e => rw [h1] at h; exact Except.noConfusion h
      | ok p =>
        rw [h1] at h
        simp only [] at h
        cases h2 : slurpStatementBlock body p.2.1 p.2.2 with
        | error e => rw [h2] at h; exact Except.noConfusion h
        | ok q =>
          rw [h2] at h
          simp only [] at h
          cases h
          exact fnt_trans (slurpValue_frame cond st ls p.1 p.2.1 p.2.2 (by rw [h1]))
            (slurpStatementBlock_frame body p.2.1 p.2.2 q.1 q.2.1 q.2.2 (by rw [h2]))
    · exact Except.noConfusion h
  | .selection ty cond trueBlock falseBlock, st, ls, output, stmts, st2, ls2 => by
    intro h
    cases falseBlock with
    | none =>
      rw [nodeToStatements] at h
      cases h1 : slurpValue cond st ls with
      | error e => rw [h1] at h; exact Except.noConfusion h
      | ok p =>
        rw [h1] at h
        simp only [] at h
        cases h2 : slurpStatementBlock trueBlock p.2.1 p.2.2 with
        | error e => rw [h2] at h; exact Except.noConfusion h
        | ok q =>
          rw [h2] at h
          simp only [] at h
          cases h
          exact fnt_trans (slurpValue_frame cond st ls p.1 p.2.1 p.2.2 (by rw [h1]))
            (slurpStatementBlock_frame trueBlock p.2.1 p.2.2 q.1 q.2.1 q.2.2 (by rw [h2]))
    | some falseNode =>
      rw [nodeToStatements] at h
      cases h1 : slurpValue cond st ls with
      | error e => rw [h1] at h; exact Except.noConfusion h
      | ok p =>
        rw [h1] at h
        simp only [] at h
        cases h2 : slurpStatementBlock trueBlock p.2.1 p.2.2 with
        | error e => rw [h2] at h; exact Except.noConfusion h
        | ok q =>
          rw [h2] at h
          simp only [] at h
          cases h3 : slurpStatementBlock falseNode q.2.1 q.2.2 with
          | error e => rw [h3] at h; exact Except.noConfusion h
          | ok r =>
            rw [h3] at h
            simp only [] at h
            cases h
            exact fnt_trans (slurpValue_frame cond st ls p.1 p.2.1 p.2.2 (by rw [h1]))
              (fnt_trans (slurpStatementBlock_frame trueBlock p.2.1 p.2.2 q.1 q.2.1 q.2.2
                (by rw [h2]))
                (slurpStatementBlock_frame falseNode q.2.1 q.2.2 r.1 r.2.1 r.2.2
                  (by rw [h3])))
  | .aggregate op ty aggName children, st, ls, output, stmts, st2, ls2 => by
    intro h
    by_cases hop : op = TOperator.EOpSequence
    · subst hop
      rw [nodeToStatements] at h
      exact nodesToStatements_frame children st ls output stmts st2 ls2 h
    · rw [nodeToStatements] at h
      · cases h1 : slurpValue (AstNode.aggregate op ty aggName children) st ls with
        | error e => rw [h1] at h; exact Except.noConfusion h
        | ok p =>
          obtain ⟨pv, pst, pls⟩ := p
          rw [h1] at h
          cases pv with
          | rvalue rid =>
            simp only [] at h
            cases h
            exact slurpValue_frame (AstNode.aggregate op ty aggName children) st ls
              (ValueId.rvalue rid) st2 ls2 h1
          | globalSym g =>
            simp only [] at h
            exact Except.noConfusion h
          | localSym l =>
            simp only [] at h
            exact Except.noConfusion h
      · exact fun hseq => hop hseq
  | .constantUnion ty values, st, ls, output, stmts, st2, ls2 => by
    intro h
    rw [nodeToStatements] at h
    cases h
    exact fnt_refl st
  | .symbol declId accessName symName ty, st, ls, output, stmts, st2, ls2 => by
    intro h
    rw [nodeToStatements] at h
    cases h
    exact fnt_refl st
  | .unary op ty operand, st, ls, output, stmts, st2, ls2 => by
    intro h
    rw [nodeToStatements] at h
    cases h1 : slurpValue (AstNode.unary op ty operand) st ls with
    | error e => rw [h1] at h; exact Except.noConfusion h
    | ok p =>
      obtain ⟨pv, pst, pls⟩ := p
      rw [h1] at h
      cases pv with
      | rvalue rid =>
        simp only [] at h
        cases h
        exact slurpValue_frame (AstNode.unary op ty operand) st ls
          (ValueId.rvalue rid) st2 ls2 (by rw [h1])
      | globalSym g =>
        simp only [] at h
        exact Except.noConfusion h
      | localSym l =>
        simp only [] at h
        exact Except.noConfusion h
  | .binary op ty lhs rhs, st, ls, output, stmts, st2, ls2 => by
    intro h
    rw [nodeToStatements] at h
    cases h1 : slurpValue (AstNode.binary op ty lhs rhs) st ls with
    | error e => rw [h1] at h; exact Except.noConfusion h
    | ok p =>
      obtain ⟨pv, pst, pls⟩ := p
      rw [h1] at h
      cases pv with
      | rvalue rid =>
        simp only [] at h
        cases h
        exact slurpValue_frame (AstNode.binary op ty lhs rhs) st ls
          (ValueId.rvalue rid) st2 ls2 (by rw [h1])
      | globalSym g =>
        simp only [] at h
        exact Except.noConfusion h
      | localSym l =>
        simp only [] at h
        exact Except.noConfusion h
termination_by node => sizeOf node + 1
decreasing_by
  all_goals simp_wf
  all_goals try (have ht := sizeOf_pos_astNode test)
  all_goals try (have hc := sizeOf_pos_astNode cond)
  all_goals omega

theorem nodesToStatements_frame :
    ∀ (nodes : List AstNode) (st : SlurperState) (ls : LocalSymbols)
      (output stmts : List Statement) (st2 : SlurperState) (ls2 : LocalSymbols),
      nodesToStatements nodes st ls output = Except.ok (stmts, st2, ls2) →
      FunctionTablesUntouched st st2
  | [], st, ls, output, stmts, st2, ls2 => by
    intro h
    rw [nodesToStatements] at h
    cases h
    exact fnt_refl st
  | n :: ns, st, ls, output, stmts, st2, ls2 => by
    intro h
    rw [nodesToStatements] at h
    cases h1 : nodeToStatements n st ls output with
    | error e => rw [h1] at h; exact Except.noConfusion h
    | ok p =>
      rw [h1] at h
      simp only [] at h
      exact fnt_trans (nodeToStatements_frame n st ls output p.1 p.2.1 p.2.2 (by rw [h1]))
        (nodesToStatements_frame ns p.2.1 p.2.2 p.1 stmts st2 ls2 h)
termination_by nodes => sizeOf nodes + 1

theorem slurpStatementBlock_frame :
    ∀ (node : AstNode) (st : SlurperState) (ls : LocalSymbols) (b : Nat)
      (st2 : SlurperState) (ls2 : LocalSymbols),
      slurpStatementBlock node st ls = Except.ok (b, st2, ls2) →
      FunctionTablesUntouched st st2
  | node, st, ls, b, st2, ls2 => by
    intro h
    rw [slurpStatementBlock.eq_def] at h
    split at h
    · rename_i ty1 nm1 cs1
      split at h
      · exact Except.noConfusion h
      · rename_i out1 st1 ls1 heq
        dsimp only at h
        cases h
        exact fnt_trans (nodesToStatements_frame cs1 st ls [] out1 st1 _ heq)
          ⟨rfl, rfl, rfl, rfl⟩
    · split at h
      · exact Except.noConfusion h
      · rename_i out1 st1 ls1 heq
        dsimp only at h
        cases h
        exact fnt_trans (nodeToStatements_frame node st ls [] out1 st1 _ heq)
          ⟨rfl, rfl, rfl, rfl⟩
termination_by node => sizeOf node + 2
decreasing_by
  all_goals simp_wf
  all_goals subst_vars
  all_goals simp_arith

end

theorem slurpParameters_frame :
    ∀ (ps : List AstNode) (st : SlurperState) (ls : LocalSymbols) (acc out : List Nat)
      (st2 : SlurperState) (ls2 : LocalSymbols),
      slurpParameters ps st ls acc = Except.ok (out, st2, ls2) →
      FunctionTablesUntouched st st2
  | [], st, ls, acc, out, st2, ls2 => by
    intro h
    rw [slurpParameters] at h
    cases h
    exact fnt_refl st
  | p :: ps, st, ls, acc, out, st2, ls2 => by
    intro h
    cases p
    case symbol declId accessName symName pty =>
      rw [slurpParameters] at h
      dsimp only at h
      cases h1 : slurpType pty {st with strings :=
          (st.strings.insert symName).2} with
      | error e => rw [h1] at h; exact Except.noConfusion h
      | ok q =>
        rw [h1] at h
        simp only [] at h
        exact fnt_trans (⟨rfl, rfl, rfl, rfl⟩ : FunctionTablesUntouched st _)
          (fnt_trans (slurpType_frame pty {st with strings :=
              (st.strings.insert symName).2} q.1 q.2 (by rw [h1]))
            (slurpParameters_frame ps q.2 _ _ out st2 ls2 h))
    all_goals rw [slurpParameters] at h
    all_goals exact Except.noConfusion h

/-! ## Loop terminal lowering (claim C9) -/

/-- A scalar bool type fixture. -/
def boolTType : TType :=
  ⟨TBasicType.ebtBool, false, 1, 0, 0, [], plainQualifier, plainSampler, false, ""⟩

/-- A scalar int type fixture. -/
def intTType : TType :=
  ⟨TBasicType.ebtInt, false, 1, 0, 0, [], plainQualifier, plainSampler, false, ""⟩

/-- The loop condition fixture: the constant true. -/
def loopTestNode : AstNode := AstNode.constantUnion boolTType [TConstUnion.bConst true]

/-- The loop terminal fixture: a post-increment, not a bare symbol or
literal. -/
def loopTermNode : AstNode :=
  AstNode.unary TOperator.EOpPostIncrement intTType
    (AstNode.constantUnion intTType [TConstUnion.iConst 0])

/-- The loop body fixture: an empty sequence. -/
def loopBodyNode : AstNode :=
  AstNode.aggregate TOperator.EOpSequence boolTType "" []

/-- The loop statement fixture assembled from the parts above. -/
def loopFixtureNode : AstNode :=
  AstNode.loop loopTestNode (some loopTermNode) true loopBodyNode

/-- The state after lowering the loop condition fixture: its literal
interned as RValue 1. -/
def loopStateA : SlurperState :=
  ⟨310, ⟨0, []⟩, ⟨0, []⟩, ⟨0, []⟩,
   ⟨1, [(RValue.literal ⟨TConstUnion.bConst true⟩, 1)]⟩,
   ⟨0, []⟩, ⟨0, []⟩, [], [], [], []⟩

/-- The state after also lowering the terminal fixture: the operand
literal is RValue 2 and the post-increment RValue 3. -/
def loopStateB : SlurperState :=
  ⟨310, ⟨0, []⟩, ⟨0, []⟩, ⟨0, []⟩,
   ⟨3, [(RValue.evaluable (Sum.inl RValueOperator.PostIncrement)
          [ValueId.rvalue 2], 3),
        (RValue.literal ⟨TConstUnion.iConst 0⟩, 2),
        (RValue.literal ⟨TConstUnion.bConst true⟩, 1)]⟩,
   ⟨0, []⟩, ⟨0, []⟩, [], [], [], []⟩

/-- The final state of the loop fixture run: the empty body interned as
statement block 1. -/
def loopStateF : SlurperState :=
  ⟨310, ⟨0, []⟩, ⟨0, []⟩, ⟨0, []⟩,
   ⟨3, [(RValue.evaluable (Sum.inl RValueOperator.PostIncrement)
          [ValueId.rvalue 2], 3),
        (RValue.literal ⟨TConstUnion.iConst 0⟩, 2),
        (RValue.literal ⟨TConstUnion.bConst true⟩, 1)]⟩,
   ⟨0, []⟩, ⟨1, [([], 1)]⟩, [], [], [], []⟩

/-- Claim C9: lowering a loop statement: an absent terminal, or a bare
symbol or bare literal terminal, yields a terminal of none; any other
terminal lowers as an expression and the loop statement carries some of
the resulting RValueId, with a fatal error when the lowered terminal is
not an RValue; on success the lowered LoopStatement appended to the
output carries the lowered condition, the terminal, the testFirst flag
and the lowered body block. -/
theorem loop_terminal_lowering_spec :
    (∀ (st : SlurperState) (ls : LocalSymbols),
      slurpLoopTerminal none st ls = Except.ok (none, st, ls)) ∧
    (∀ (t : AstNode) (st : SlurperState) (ls : LocalSymbols),
      (t.isSymbolNode || t.isConstantUnionNode) = true →
      slurpLoopTerminal (some t) st ls = Except.ok (none, st, ls)) ∧
    (∀ (t : AstNode) (st st1 : SlurperState) (ls ls1 : LocalSymbols) (rid : Nat),
      t.isSymbolNode = false → t.isConstantUnionNode = false →
      slurpValue t st ls = Except.ok (ValueId.rvalue rid, st1, ls1) →
      slurpLoopTerminal (some t) st ls = Except.ok (some rid, st1, ls1)) ∧
    (∀ (t : AstNode) (st st1 : SlurperState) (ls ls1 : LocalSymbols) (v : ValueId),
      t.isSymbolNode = false → t.isConstantUnionNode = false →
      slurpValue t st ls = Except.ok (v, st1, ls1) →
      (∀ rid, v ≠ ValueId.rvalue rid) →
      slurpLoopTerminal (some t) st ls =
        Except.error "Encountered non-RValue in Loop terminal") ∧
    (∀ (test : AstNode) (terminal : Option AstNode) (testFirst : Bool)
        (body : AstNode) (st : SlurperState) (ls : LocalSymbols)
        (output stmts : List Statement) (st2 : SlurperState) (ls2 : LocalSymbols),
      nodeToStatements (AstNode.loop test terminal testFirst body) st ls output =
        Except.ok (stmts, st2, ls2) →
      ∃ conditionId stA lsA terminalId stB lsB bodyId,
        slurpValue test st ls = Except.ok (conditionId, stA, lsA) ∧
        slurpLoopTerminal terminal stA lsA = Except.ok (terminalId, stB, lsB) ∧
        slurpStatementBlock body stB lsB = Except.ok (bodyId, st2, ls2) ∧
        stmts = output ++
          [Statement.loopStmt conditionId terminalId testFirst bodyId]) := by
  refine ⟨?_, ?_, ?_, ?_, ?_⟩
  · intro st ls
    rw [slurpLoopTerminal]
  · intro t st ls h
    rw [slurpLoopTerminal]
    have hc : (!t.isSymbolNode && !t.isConstantUnionNode) = false := by
      revert h
      cases t.isSymbolNode <;> cases t.isConstantUnionNode <;> simp
    rw [hc]
    simp
  · intro t st st1 ls ls1 rid h1 h2 h3
    rw [slurpLoopTerminal, h1, h2, h3]
    rfl
  · intro t st st1 ls ls1 v h1 h2 h3 h4
    rw [slurpLoopTerminal, h1, h2, h3]
    cases v with
    | rvalue rid => exact absurd rfl (h4 rid)
    | globalSym g => rfl
    | localSym l => rfl
  · intro test terminal testFirst body st ls output stmts st2 ls2 h
    rw [nodeToStatements] at h
    cases h1 : slurpValue test st ls with
    | error e => rw [h1] at h; exact Except.noConfusion h
    | ok p =>
      obtain ⟨pv, pst, pls⟩ := p
      rw [h1] at h
      simp only [] at h
      cases h2 : slurpLoopTerminal terminal pst pls with
      | error e => rw [h2] at h; exact Except.noConfusion h
      | ok q =>
        obtain ⟨qv, qst, qls⟩ := q
        rw [h2] at h
        simp only [] at h
        cases h3 : slurpStatementBlock body qst qls with
        | error e => rw [h3] at h; exact Except.noConfusion h
        | ok r =>
          obtain ⟨rv, rst, rls⟩ := r
          rw [h3] at h
          simp only [] at h
          cases h
          exact ⟨pv, pst, pls, qv, qst, qls, rv, rfl, h2, h3, rfl⟩

/-- Witness for C9: the concrete for-style loop fixture (constant
condition, post-increment terminal, empty body) lowers successfully and
the theorem recovers its condition, terminal and body runs. -/
theorem loop_terminal_lowering_spec_witness :
    nodeToStatements loopFixtureNode (initialState 310)
        (IdStoreByKey.empty Int Symbol) [] =
      Except.ok ([Statement.loopStmt (ValueId.rvalue 1) (some 3) true 1],
        loopStateF, IdStoreByKey.empty Int Symbol) ∧
    ∃ conditionId stA lsA terminalId stB lsB bodyId,
      slurpValue loopTestNode (initialState 310)
          (IdStoreByKey.empty Int Symbol) = Except.ok (conditionId, stA, lsA) ∧
      slurpLoopTerminal (some loopTermNode) stA lsA =
        Except.ok (terminalId, stB, lsB) ∧
      slurpStatementBlock loopBodyNode stB lsB =
        Except.ok (bodyId, loopStateF, IdStoreByKey.empty Int Symbol) ∧
      ([Statement.loopStmt (ValueId.rvalue 1) (some 3) true 1] : List Statement) =
        [] ++ [Statement.loopStmt conditionId terminalId true bodyId] := by
  have hA : slurpValue loopTestNode (initialState 310)
      (IdStoreByKey.empty Int Symbol) =
      Except.ok (ValueId.rvalue 1, loopStateA, IdStoreByKey.empty Int Symbol) := rfl
  have hB : slurpLoopTerminal (some loopTermNode) loopStateA
      (IdStoreByKey.empty Int Symbol) =
      Except.ok (some 3, loopStateB, IdStoreByKey.empty Int Symbol) := rfl
  have hC : slurpStatementBlock loopBodyNode loopStateB
      (IdStoreByKey.empty Int Symbol) =
      Except.ok (1, loopStateF, IdStoreByKey.empty Int Symbol) := by
    simp only [loopBodyNode]
    rw [slurpStatementBlock.eq_def]
    simp only []
    rw [nodesToStatements]
    rfl
  have hrun : nodeToStatements loopFixtureNode (initialState 310)
      (IdStoreByKey.empty Int Symbol) [] =
      Except.ok ([Statement.loopStmt (ValueId.rvalue 1) (some 3) true 1],
        loopStateF, IdStoreByKey.empty Int Symbol) := by
    simp only [loopFixtureNode]
    rw [nodeToStatements]
    simp only [hA, hB, hC]
    rfl
  exact ⟨hrun, loop_terminal_lowering_spec.2.2.2.2 loopTestNode (some loopTermNode)
    true loopBodyNode (initialState 310) (IdStoreByKey.empty Int Symbol) []
    [Statement.loopStmt (ValueId.rvalue 1) (some 3) true 1] loopStateF
    (IdStoreByKey.empty Int Symbol) hrun⟩

/-! ## Global initializers (claim C8) -/

/-- A field-access left-hand side fixture (an indexing expression, not a
plain symbol). -/
def badInitLhs : AstNode :=
  AstNode.binary TOperator.EOpIndexDirect floatTType
    (AstNode.symbol 1 "v" "v" floatTType)
    (AstNode.constantUnion intTType [TConstUnion.iConst 0])

/-- A binary initializer child whose operator is not assignment is
rejected. -/
theorem processInitChild_nonassign (op : TOperator) (ty : TType)
    (lhs rhs : AstNode) (st : SlurperState) (ls : LocalSymbols)
    (hop : op ≠ TOperator.EOpAssign) :
    processInitChild (AstNode.binary op ty lhs rhs) st ls =
      Except.error "Unhandled child of LinkerObjects node" := by
  rw [processInitChild.eq_def]
  dsimp only
  rw [if_neg hop]

/-- Claim C8: a global-initializer child is fatal unless it is an
assignment whose left side is a plain symbol; the right side lowers in the
initially-empty shared local scope passed by slurpFromRoot and a non-empty
scope afterwards is fatal; on success exactly the pair (global id, value
id) is appended to globalSymbolDefinitionsInOrder; a fatal root run
produces no Pack. -/
theorem global_initializer_spec :
    (∀ (ty : TType) (lhs rhs : AstNode) (st : SlurperState) (ls : LocalSymbols),
      (∀ d a nm t, lhs ≠ AstNode.symbol d a nm t) →
      processInitChild (AstNode.binary TOperator.EOpAssign ty lhs rhs) st ls =
        Except.error "Left-hand side of global variable definition must be symbol") ∧
    (∀ (child : AstNode) (st : SlurperState) (ls : LocalSymbols)
        (r : SlurperState × LocalSymbols),
      processInitChild child st ls = Except.ok r →
      ∃ ty declId accessName symName lty rhs,
        child = AstNode.binary TOperator.EOpAssign ty
          (AstNode.symbol declId accessName symName lty) rhs) ∧
    (∀ (ty : TType) (declId : Int) (accessName symName : String) (lty : TType)
        (rhs : AstNode) (st : SlurperState) (ls : LocalSymbols) (gid : Nat)
        (st1 : SlurperState) (v : ValueId) (st2 : SlurperState) (ls2 : LocalSymbols),
      slurpGlobalSymbol declId accessName lty st = Except.ok (gid, st1) →
      slurpValue rhs st1 ls = Except.ok (v, st2, ls2) →
      ls2.isEmpty = false →
      processInitChild (AstNode.binary TOperator.EOpAssign ty
          (AstNode.symbol declId accessName symName lty) rhs) st ls =
        Except.error "Global symbol definition must not touch local symbols") ∧
    (∀ (ty : TType) (declId : Int) (accessName symName : String) (lty : TType)
        (rhs : AstNode) (st : SlurperState) (ls : LocalSymbols) (gid : Nat)
        (st1 : SlurperState) (v : ValueId) (st2 : SlurperState) (ls2 : LocalSymbols),
      slurpGlobalSymbol declId accessName lty st = Except.ok (gid, st1) →
      slurpValue rhs st1 ls = Except.ok (v, st2, ls2) →
      ls2.isEmpty = true →
      processInitChild (AstNode.binary TOperator.EOpAssign ty
          (AstNode.symbol declId accessName symName lty) rhs) st ls =
        Except.ok ({st2 with globalSymbolDefinitionsInOrder :=
          st2.globalSymbolDefinitionsInOrder ++ [(gid, v)]}, ls2)) ∧
    (∀ (ty : TType) (nm : String) (children l sq f : List AstNode)
        (st st1 : SlurperState),
      classifyRootChildren children = Except.ok (l, sq, f) →
      slurpLinkerObjects l st = Except.ok st1 →
      slurpFromRoot (AstNode.aggregate TOperator.EOpSequence ty nm children) st =
        (match processInitSequences sq st1 (IdStoreByKey.empty Int Symbol) with
         | Except.error e => Except.error e
         | Except.ok (st2, _) => slurpFunctionNodes f st2)) ∧
    (∀ (version : Int) (root : AstNode) (e : String),
      slurpFromRoot root (initialState version) = Except.error e →
      fromGlsl version root = Except.error e) := by
  refine ⟨?_, ?_, ?_, ?_, ?_, ?_⟩
  · intro ty lhs rhs st ls h
    cases lhs with
    | symbol d a nm t => exact absurd rfl (h d a nm t)
    | constantUnion t vs => rfl
    | unary op t o => rfl
    | binary op t a b => rfl
    | selection t c tb fb => rfl
    | aggregate op t nm cs => rfl
    | loop t tm tf b => rfl
    | branch op e => rfl
    | switchNode c b => rfl
  · intro child st ls r h
    cases child with
    | binary op ty lhs rhs =>
      by_cases hop : op = TOperator.EOpAssign
      · subst hop
        cases lhs with
        | symbol d a nm t => exact ⟨ty, d, a, nm, t, rhs, rfl⟩
        | constantUnion t vs => exact Except.noConfusion h
        | unary op2 t o => exact Except.noConfusion h
        | binary op2 t a b => exact Except.noConfusion h
        | selection t c tb fb => exact Except.noConfusion h
        | aggregate op2 t nm cs => exact Except.noConfusion h
        | loop t tm tf b => exact Except.noConfusion h
        | branch op2 e => exact Except.noConfusion h
        | switchNode c b => exact Except.noConfusion h
      · rw [processInitChild_nonassign op ty lhs rhs st ls hop] at h
        exact Except.noConfusion h
    | constantUnion t vs => exact Except.noConfusion h
    | symbol d a nm t => exact Except.noConfusion h
    | unary op t o => exact Except.noConfusion h
    | selection t c tb fb => exact Except.noConfusion h
    | aggregate op t nm cs => exact Except.noConfusion h
    | loop t tm tf b => exact Except.noConfusion h
    | branch op e => exact Except.noConfusion h
    | switchNode c b => exact Except.noConfusion h
  · intro ty declId accessName symName lty rhs st ls gid st1 v st2 ls2 h1 h2 h3
    rw [processInitChild, if_pos rfl]
    simp only [h1, h2, h3]
    try rfl
  · intro ty declId accessName symName lty rhs st ls gid st1 v st2 ls2 h1 h2 h3
    rw [processInitChild, if_pos rfl]
    simp only [h1, h2, h3]
    try rfl
  · intro ty nm children l sq f st st1 h1 h2
    rw [slurpFromRoot, if_pos rfl, h1]
    dsimp only
    rw [h2]
  · intro version root e h
    rw [fromGlsl, h]

/-- Witness for C8: the assignment fixture whose left side is a field
access, not a plain symbol, is rejected with the fatal error and no
state. -/
theorem global_initializer_spec_witness :
    (∀ d a nm t, badInitLhs ≠ AstNode.symbol d a nm t) ∧
    processInitChild (AstNode.binary TOperator.EOpAssign floatTType badInitLhs
        (AstNode.constantUnion floatTType [TConstUnion.dConst 1]))
      (initialState 310) (IdStoreByKey.empty Int Symbol) =
      Except.error "Left-hand side of global variable definition must be symbol" :=
  ⟨fun d a nm t h => AstNode.noConfusion h,
   global_initializer_spec.1 floatTType badInitLhs
     (AstNode.constantUnion floatTType [TConstUnion.dConst 1])
     (initialState 310) (IdStoreByKey.empty Int Symbol)
     (fun d a nm t h => AstNode.noConfusion h)⟩

/-! ## Function prototypes and definitions (claim C1) -/

/-- After a map-style update, lookup at the written key returns the new
value. -/
theorem lookupFunctionDefinition_update (l : List (Nat × FunctionDefinition))
    (k : Nat) (v : FunctionDefinition) :
    lookupFunctionDefinition (updateFunctionDefinitions l k v) k = some v := by
  simp [lookupFunctionDefinition, updateFunctionDefinitions, List.find?]

/-- After a map-style update, the written key owns exactly one entry. -/
theorem countKey_update (l : List (Nat × FunctionDefinition)) (k : Nat)
    (v : FunctionDefinition) :
    ((updateFunctionDefinitions l k v).filter (fun p => p.1 = k)).length = 1 := by
  have h2 : (l.filter (fun p => p.1 ≠ k)).filter (fun p => p.1 = k) = [] := by
    induction l with
    | nil => rfl
    | cons a t ih =>
      by_cases h : a.1 = k
      · simp [List.filter, h, ih]
      · simp [List.filter, h, ih]
  simp [updateFunctionDefinitions, List.filter, h2]

/-- Claim C1 (amended): a prototype-shaped function node inserts the
function id into the prototype set (set-style, membership preserving) and
touches neither the definition map nor the in-order list; a
definition-shaped node leaves the prototype set unchanged (the id is never
removed), stores the finished definition under the id with exactly one
entry for that key, and appends the id to the in-order list; so an id
declared both ways ends in both tables. -/
theorem slurpFunctionDefinition_tables_spec :
    (∀ (ty : TType) (fnName : String) (pOp : TOperator) (pTy : TType)
        (pNm : String) (pCs : List AstNode) (st st2 : SlurperState),
      slurpFunctionDefinition (AstNode.aggregate TOperator.EOpFunction ty fnName
          [AstNode.aggregate pOp pTy pNm pCs]) st = Except.ok st2 →
      st2.functionPrototypes =
        setInsert st.functionPrototypes (st.functionNames.insert fnName).1 ∧
      st2.functionDefinitions = st.functionDefinitions ∧
      st2.functionDefinitionsInOrder = st.functionDefinitionsInOrder) ∧
    (∀ (ty : TType) (fnName : String) (pOp : TOperator) (pTy : TType)
        (pNm : String) (pCs : List AstNode) (bodyNode : AstNode)
        (st st2 : SlurperState),
      slurpFunctionDefinition (AstNode.aggregate TOperator.EOpFunction ty fnName
          [AstNode.aggregate pOp pTy pNm pCs, bodyNode]) st = Except.ok st2 →
      st2.functionPrototypes = st.functionPrototypes ∧
      ∃ d, lookupFunctionDefinition st2.functionDefinitions
            (st.functionNames.insert fnName).1 = some d ∧
        (st2.functionDefinitions.filter
          (fun p => p.1 = (st.functionNames.insert fnName).1)).length = 1 ∧
        st2.functionDefinitionsInOrder =
          st.functionDefinitionsInOrder ++ [(st.functionNames.insert fnName).1]) := by
  constructor
  · intro ty fnName pOp pTy pNm pCs st st2 h
    have h2 : Except.ok ({st with
        functionNames := (st.functionNames.insert fnName).2
        functionPrototypes := setInsert st.functionPrototypes
          (st.functionNames.insert fnName).1} : SlurperState) = Except.ok st2 := h
    cases h2
    exact ⟨rfl, rfl, rfl⟩
  · intro ty fnName pOp pTy pNm pCs bodyNode st st2 h
    have h2 : (match slurpType ty {st with
        functionNames := (st.functionNames.insert fnName).2} with
      | Except.error e => Except.error e
      | Except.ok (returnTypeId, st1) =>
        match slurpParameters pCs st1 (IdStoreByKey.empty Int Symbol) [] with
        | Except.error e => Except.error e
        | Except.ok (parameters, stp, lsp) =>
          match slurpStatementBlock bodyNode stp lsp with
          | Except.error e => Except.error e
          | Except.ok (bodyId, st3, ls3) =>
            Except.ok {st3 with
              functionDefinitions := updateFunctionDefinitions st3.functionDefinitions
                (st.functionNames.insert fnName).1
                ⟨(st.functionNames.insert fnName).1, returnTypeId, parameters,
                  bodyId, ls3.getFinal⟩
              functionDefinitionsInOrder := st3.functionDefinitionsInOrder ++
                [(st.functionNames.insert fnName).1]}) = Except.ok st2 := h
    cases hT : slurpType ty {st with
        functionNames := (st.functionNames.insert fnName).2} with
    | error e => rw [hT] at h2; exact Except.noConfusion h2
    | ok q =>
      obtain ⟨returnTypeId, st1⟩ := q
      rw [hT] at h2
      simp only [] at h2
      cases hP : slurpParameters pCs st1 (IdStoreByKey.empty Int Symbol) [] with
      | error e => rw [hP] at h2; exact Except.noConfusion h2
      | ok qp =>
        obtain ⟨parameters, stp, lsp⟩ := qp
        rw [hP] at h2
        simp only [] at h2
        cases hBk : slurpStatementBlock bodyNode stp lsp with
        | error e => rw [hBk] at h2; exact Except.noConfusion h2
        | ok qb =>
          obtain ⟨bodyId, st3, ls3⟩ := qb
          rw [hBk] at h2
          simp only [] at h2
          cases h2
          have f := fnt_trans (fnt_trans
            (slurpType_frame ty _ returnTypeId st1 hT)
            (slurpParameters_frame pCs st1 (IdStoreByKey.empty Int Symbol) []
              parameters stp lsp hP))
            (slurpStatementBlock_frame bodyNode stp lsp bodyId st3 ls3 hBk)
          refine ⟨f.2.1, ⟨(st.functionNames.insert fnName).1, returnTypeId,
            parameters, bodyId, ls3.getFinal⟩, ?_, ?_, ?_⟩
          · exact lookupFunctionDefinition_update _ _ _
          · exact countKey_update _ _ _
          · show st3.functionDefinitionsInOrder ++ _ = _
            rw [f.2.2.1]

/-- The void return type fixture. -/
def voidTType : TType :=
  ⟨TBasicType.ebtVoid, false, 1, 0, 0, [], plainQualifier, plainSampler, false, ""⟩

/-- The empty parameter-list node fixture. -/
def fnParamsNode : AstNode :=
  AstNode.aggregate TOperator.EOpParameters voidTType "" []

/-- The empty function body fixture. -/
def fnBodyNode : AstNode :=
  AstNode.aggregate TOperator.EOpSequence voidTType "" []

/-- A prototype-only declaration of f. -/
def fnProtoNode : AstNode :=
  AstNode.aggregate TOperator.EOpFunction voidTType "f(" [fnParamsNode]

/-- A full definition of f. -/
def fnDefNode : AstNode :=
  AstNode.aggregate TOperator.EOpFunction voidTType "f(" [fnParamsNode, fnBodyNode]

/-- The root holding the prototype and then the definition of f. -/
def protoDefRootNode : AstNode :=
  AstNode.aggregate TOperator.EOpSequence voidTType "" [fnProtoNode, fnDefNode]

/-- The state after the prototype of f: name f( interned as 1, prototype
set {1}. -/
def ctProtoState : SlurperState :=
  ⟨310, ⟨0, []⟩, ⟨0, []⟩, ⟨0, []⟩, ⟨0, []⟩, ⟨1, [("f(", 1)]⟩, ⟨0, []⟩,
   [], [1], [], []⟩

/-- The state inside the definition of f after its return type and empty
parameter list. -/
def ctMidState : SlurperState :=
  ⟨310, ⟨1, [("void", 1)]⟩, ⟨1, [(⟨1, none, []⟩, 1)]⟩, ⟨0, []⟩, ⟨0, []⟩,
   ⟨1, [("f(", 1)]⟩, ⟨0, []⟩, [], [1], [], []⟩

/-- ctMidState after the empty body is interned as block 1. -/
def ctMidState2 : SlurperState :=
  ⟨310, ⟨1, [("void", 1)]⟩, ⟨1, [(⟨1, none, []⟩, 1)]⟩, ⟨0, []⟩, ⟨0, []⟩,
   ⟨1, [("f(", 1)]⟩, ⟨1, [([], 1)]⟩, [], [1], [], []⟩

/-- The final state of the prototype-then-definition run: function 1 in
the prototype set and in the definition map. -/
def ctFinalState : SlurperState :=
  ⟨310, ⟨1, [("void", 1)]⟩, ⟨1, [(⟨1, none, []⟩, 1)]⟩, ⟨0, []⟩, ⟨0, []⟩,
   ⟨1, [("f(", 1)]⟩, ⟨1, [([], 1)]⟩, [(1, ⟨1, 1, [], 1, []⟩)], [1], [], [1]⟩

/-- Counterexample to C1 as frozen: processing the definition of f after
its prototype leaves id 1 in the prototype set while also storing it in
the definition map, so the id is in both, not exactly one. -/
theorem prototype_retained_counterexample :
    ∃ pack, fromGlsl 310 protoDefRootNode = Except.ok pack ∧
      1 ∈ pack.functionPrototypes ∧
      lookupFunctionDefinition pack.functionDefinitions 1 =
        some ⟨1, 1, [], 1, []⟩ := by
  have hB : slurpStatementBlock fnBodyNode ctMidState
      (IdStoreByKey.empty Int Symbol) =
      Except.ok (1, ctMidState2, IdStoreByKey.empty Int Symbol) := by
    simp only [fnBodyNode]
    rw [slurpStatementBlock.eq_def]
    simp only []
    rw [nodesToStatements]
    rfl
  have hDef : slurpFunctionDefinition fnDefNode ctProtoState =
      Except.ok ctFinalState := by
    calc slurpFunctionDefinition fnDefNode ctProtoState
        = (match slurpStatementBlock fnBodyNode ctMidState
              (IdStoreByKey.empty Int Symbol) with
          | Except.error e => Except.error e
          | Except.ok (bodyId, st3, ls3) =>
            Except.ok {st3 with
              functionDefinitions := updateFunctionDefinitions
                st3.functionDefinitions 1 ⟨1, 1, [], bodyId, ls3.getFinal⟩
              functionDefinitionsInOrder :=
                st3.functionDefinitionsInOrder ++ [1]}) := rfl
      _ = Except.ok ctFinalState := by rw [hB]; rfl
  have hrun : fromGlsl 310 protoDefRootNode = Except.ok (intoPack ctFinalState) := by
    calc fromGlsl 310 protoDefRootNode
        = (match (match slurpFunctionDefinition fnDefNode ctProtoState with
                  | Except.error e => Except.error e
                  | Except.ok st1 => slurpFunctionNodes [] st1) with
          | Except.error e => Except.error e
          | Except.ok st => Except.ok (intoPack st)) := rfl
      _ = Except.ok (intoPack ctFinalState) := by rw [hDef]; rfl
  exact ⟨intoPack ctFinalState, hrun, by decide, rfl⟩

/-- The definition-run states from the fresh initial state. -/
def defMidState : SlurperState :=
  ⟨310, ⟨1, [("void", 1)]⟩, ⟨1, [(⟨1, none, []⟩, 1)]⟩, ⟨0, []⟩, ⟨0, []⟩,
   ⟨1, [("f(", 1)]⟩, ⟨0, []⟩, [], [], [], []⟩

/-- defMidState after the empty body is interned as block 1. -/
def defMidState2 : SlurperState :=
  ⟨310, ⟨1, [("void", 1)]⟩, ⟨1, [(⟨1, none, []⟩, 1)]⟩, ⟨0, []⟩, ⟨0, []⟩,
   ⟨1, [("f(", 1)]⟩, ⟨1, [([], 1)]⟩, [], [], [], []⟩

/-- The final state of the fresh definition run. -/
def defRunState : SlurperState :=
  ⟨310, ⟨1, [("void", 1)]⟩, ⟨1, [(⟨1, none, []⟩, 1)]⟩, ⟨0, []⟩, ⟨0, []⟩,
   ⟨1, [("f(", 1)]⟩, ⟨1, [([], 1)]⟩, [(1, ⟨1, 1, [], 1, []⟩)], [], [], [1]⟩

/-- Witness for the amended C1: running the definition of f from the
fresh state stores definition 1 once, appends it in order, and keeps the
(empty) prototype set unchanged. -/
theorem slurpFunctionDefinition_tables_spec_witness :
    slurpFunctionDefinition fnDefNode (initialState 310) =
      Except.ok defRunState ∧
    (defRunState.functionPrototypes = (initialState 310).functionPrototypes ∧
     ∃ d, lookupFunctionDefinition defRunState.functionDefinitions
          ((initialState 310).functionNames.insert "f(").1 = some d ∧
       (defRunState.functionDefinitions.filter
         (fun p => p.1 = ((initialState 310).functionNames.insert "f(").1)).length = 1 ∧
       defRunState.functionDefinitionsInOrder =
         (initialState 310).functionDefinitionsInOrder ++
           [((initialState 310).functionNames.insert "f(").1]) := by
  have hB : slurpStatementBlock fnBodyNode defMidState
      (IdStoreByKey.empty Int Symbol) =
      Except.ok (1, defMidState2, IdStoreByKey.empty Int Symbol) := by
    simp only [fnBodyNode]
    rw [slurpStatementBlock.eq_def]
    simp only []
    rw [nodesToStatements]
    rfl
  have hrun : slurpFunctionDefinition fnDefNode (initialState 310) =
      Except.ok defRunState := by
    calc slurpFunctionDefinition fnDefNode (initialState 310)
        = (match slurpStatementBlock fnBodyNode defMidState
              (IdStoreByKey.empty Int Symbol) with
          | Except.error e => Except.error e
          | Except.ok (bodyId, st3, ls3) =>
            Except.ok {st3 with
              functionDefinitions := updateFunctionDefinitions
                st3.functionDefinitions 1 ⟨1, 1, [], bodyId, ls3.getFinal⟩
              functionDefinitionsInOrder :=
                st3.functionDefinitionsInOrder ++ [1]}) := rfl
      _ = Except.ok defRunState := by rw [hB]; rfl
  exact ⟨hrun, slurpFunctionDefinition_tables_spec.2 voidTType "f("
    TOperator.EOpParameters voidTType "" [] fnBodyNode (initialState 310)
    defRunState hrun⟩


end Astrict
